import Mathlib

/-!
# phenomix: the numeric kernel of `src/phenomix.cpp`

A shallow embedding of the template functions of `phenomix.cpp` (`qthill`,
`dgnorm`, `ddnorm`, `ddt`, `ddgnorm`, `qgnorm`, `qdnorm`, `qdt`, `qdgnorm`)
and of `objective_function::operator()`.

The C++ code is a template over a numeric `Type`.  It is embedded over an
arbitrary linearly ordered field `α`; the functions the code takes from the
numeric environment (`exp`, `log`, `sqrt`, `pow`, `fabs`, `lgamma`, `dnorm`,
`qnorm`, `dt`, `dgamma`, `qgamma`, `dpois`, `dnbinom_robust`,
`dbinom_robust`) are the fields of a record `Prims α` that every embedded
function receives.  Instantiated at `ℚ` the definitions run; instantiated at
`ℝ` with `Rprims` they are the exact-arithmetic reading of the code, where
machine doubles are read as real numbers and a division by zero yields `0`.
-/

namespace Phenomix

/-- The functions `phenomix.cpp` calls but does not define.  All densities
are the log-densities (the code always passes `give_log = true`). -/
structure Prims (α : Type) where
  /-- The call `exp(x)` -/
  exp : α → α
  /-- The call `log(x)` -/
  log : α → α
  /-- The call `sqrt(x)` -/
  sqrt : α → α
  /-- The call `pow(x, y)` -/
  pow : α → α → α
  /-- The call `fabs(x)` -/
  fabs : α → α
  /-- The call `lgamma(x)` -/
  lgamma : α → α
  /-- The call `dnorm(x, mean, sd, true)` -/
  dnorm : α → α → α → α
  /-- The call `qnorm(p, mean, sd)` -/
  qnorm : α → α → α → α
  /-- The call `dt(x, df, true)` -/
  dt : α → α → α
  /-- The call `dgamma(x, shape, scale, true)` -/
  dgamma : α → α → α → α
  /-- The call `qgamma(p, shape, scale)` -/
  qgamma : α → α → α → α
  /-- The call `dpois(x, lambda, true)` -/
  dpois : α → α → α
  /-- The call `dnbinom_robust(x, log_mu, log_var_minus_mu, true)` -/
  dnbinom_robust : α → α → α → α
  /-- The call `dbinom_robust(k, size, logit_p, true)` -/
  dbinom_robust : α → α → α → α

section Library

variable {α : Type} [LinearOrderedField α]

/-- Function `qthill` (lines 4-50): Hill's (1970) Student-t quantile, extended by a
location `mean` and a scale `sigma`. -/
def qthill (P : Prims α) (quantile v mean sigma : α) : α :=
  let flip : α := if quantile > 0.5 then 1 else -1
  let z : α := if quantile > 0.5 then 2*(1 - quantile) else 2*quantile
  let a : α := 1/(v - 0.5)
  let b : α := 48/(a*a)
  let c : α := ((20700*a/b - 98)*a - 16)*a + 96.36
  let d : α := ((94.5/(b + c) - 3)/b + 1)*P.sqrt (a*3.14159265/2)*v
  let x : α := z*d
  let y : α := P.pow x (2/v)
  let y : α :=
    if y > 0.05 + a then
      let x : α := P.qnorm (z*0.5) 0 1
      let y : α := x*x
      let c : α := if v < 5 then c + 0.3*(v - 4.5)*(x + 0.6) else c
      let c : α := c + (((0.05*d*x - 5)*x - 7)*x - 2)*x + b
      let y : α := (((((0.4*y + 6.3)*y + 36)*y + 94.5)/c - y - 3)/b + 1)*x
      let y : α := a*y*y
      if y > 0.002 then P.exp y - 1 else y + 0.5*y*y
    else
      ((1/(((v + 6)/(v*y) - 0.089*d - 0.822)*(v + 2)*3) + 0.5/(v + 4))*y - 1)*(v + 1)/(v + 2)
        + 1/y
  let q : α := P.sqrt (v*y)
  let q : α := q * flip
  mean + sigma*q

/-- Function `dgnorm` (lines 52-60): log-density of the generalized normal. -/
def dgnorm (P : Prims α) (x mu alpha beta : α) : α :=
  -P.pow (P.fabs (x - mu)/alpha) beta + P.log beta
    - (P.log 2 + P.log alpha + P.lgamma (1/beta))

/-- Function `ddnorm` (lines 62-73): log-density of the double normal. -/
def ddnorm (P : Prims α) (x mu sigma1 sigma2 : α) : α :=
  let z : α := P.log 2 - P.log (sigma1 + sigma2)
  if x < mu then z + P.dnorm ((x - mu)/sigma1) 0 1
  else z + P.dnorm ((x - mu)/sigma2) 0 1

/-- Function `ddt` (lines 75-86): log-density of the double Student-t. -/
def ddt (P : Prims α) (x mu sigma1 sigma2 tdf_1 tdf_2 : α) : α :=
  let z : α := P.log 2 - P.log (sigma1 + sigma2)
  if x < mu then z + P.dt ((x - mu)/sigma1) tdf_1
  else z + P.dt ((x - mu)/sigma2) tdf_2

/-- Function `ddgnorm` (lines 88-99): log-density of the double generalized normal. -/
def ddgnorm (P : Prims α) (x mu alpha1 alpha2 beta1 beta2 sigma1 sigma2 : α) : α :=
  let z : α := P.log 2 - P.log (sigma1 + sigma2)
  if x < mu then z + dgnorm P x mu alpha1 beta1
  else z + dgnorm P x mu alpha2 beta2

/-- Function `qgnorm` (lines 101-124): quantile of the generalized normal. -/
def qgnorm (P : Prims α) (quantile mu alpha beta : α) : α :=
  let p : α := quantile
  let p : α := if p > 0.5 then 1 - p else p
  let sign : α := 0
  let sign : α := if p - 0.5 > 0 then 1 else sign
  let sign : α := if p - 0.5 < 0 then -1 else sign
  let shape : α := 1/beta
  let scale : α := 1/P.pow (1/alpha) beta
  sign*P.exp (P.log (P.qgamma (P.fabs (p - 0.5)*2) shape scale)/beta) + mu

/-- Function `qdnorm` (lines 126-138): quantile of the double normal. -/
def qdnorm (P : Prims α) (p mu sigma1 sigma2 : α) : α :=
  let r : α := sigma1/(sigma1 + sigma2)
  if p < r then
    mu + sigma1 * P.qnorm (0.5 * p * (sigma1 + sigma2)/sigma1) 0 1
  else
    mu + sigma2 * P.qnorm (0.5 * ((sigma1 + sigma2) * (1 + p) - 2 * sigma1)/sigma2) 0 1

set_option linter.unusedVariables false in
/-- Function `qdt` (lines 140-152): quantile of the double Student-t. -/
def qdt (P : Prims α) (p mu sigma1 sigma2 tdf_1 tdf_2 : α) : α :=
  let r : α := sigma1/(sigma1 + sigma2)
  if p < r then
    mu + sigma1 * qthill P (0.5 * p * (sigma1 + sigma2)/sigma1) tdf_1 0 1
  else
    mu + sigma2 * qthill P (0.5 * ((sigma1 + sigma2) * (1 + p) - 2 * sigma1)/sigma2) tdf_1 0 1

/-- Function `qdgnorm` (lines 154-166): quantile of the double generalized normal. -/
def qdgnorm (P : Prims α) (p mu sigma1 sigma2 beta_ratio_1 beta_ratio_2 beta_1 beta_2 : α) : α :=
  let r : α := sigma1/(sigma1 + sigma2)
  if p < r then
    mu + sigma1 * qgnorm P (0.5 * p * (sigma1 + sigma2)/sigma1) mu (sigma1*beta_ratio_1) beta_1
  else
    mu + sigma2 * qgnorm P (0.5 * ((sigma1 + sigma2) * (1 + p) - 2 * sigma1)/sigma2) mu
      (sigma2*beta_ratio_2) beta_2

end Library

/-! ## `objective_function::operator()` -/

/-- The `DATA_*` inputs (lines 174-192).  A vector is a function on indices
together with its size where the code reads it (`n = y.size()`); a matrix is
a function of row and column together with its number of columns. -/
structure Data (α : Type) where
  /-- Input `DATA_VECTOR(y)` -/
  y : Nat → α
  /-- Input `y.size()` -/
  n : Nat
  /-- Input `DATA_VECTOR(x)` -/
  x : Nat → α
  /-- Input `DATA_IVECTOR(years)`, 1-based group of each observation -/
  years : Nat → Int
  /-- Input `DATA_INTEGER(nLevels)` -/
  nLevels : Nat
  /-- Input `DATA_INTEGER(asymmetric)` -/
  asymmetric : Int
  /-- Input `DATA_INTEGER(family)` -/
  family : Int
  /-- Input `DATA_INTEGER(tail_model)` -/
  tail_model : Int
  /-- Input `DATA_INTEGER(est_sigma_re)` -/
  est_sigma_re : Int
  /-- Input `DATA_INTEGER(est_mu_re)` -/
  est_mu_re : Int
  /-- Input `DATA_MATRIX(mu_mat)` -/
  mu_mat : Nat → Nat → α
  /-- number of columns of `mu_mat` -/
  mu_cols : Nat
  /-- Input `DATA_MATRIX(sig_mat)` -/
  sig_mat : Nat → Nat → α
  /-- number of columns of `sig_mat` -/
  sig_cols : Nat
  /-- Input `DATA_INTEGER(share_shape)` -/
  share_shape : Int
  /-- Input `DATA_INTEGER(use_t_prior)` -/
  use_t_prior : Int
  /-- Input `DATA_INTEGER(use_beta_prior)` -/
  use_beta_prior : Int
  /-- Input `DATA_VECTOR(nu_prior)` -/
  nu_prior : Nat → α
  /-- Input `DATA_VECTOR(beta_prior)` -/
  beta_prior : Nat → α

/-- The `PARAMETER*` inputs (lines 194-209). -/
structure Params (α : Type) where
  /-- Input `PARAMETER(log_sigma1_sd)` -/
  log_sigma1_sd : α
  /-- Input `PARAMETER_VECTOR(sigma1_devs)` -/
  sigma1_devs : Nat → α
  /-- Input `PARAMETER(log_sigma2_sd)` -/
  log_sigma2_sd : α
  /-- Input `PARAMETER_VECTOR(sigma2_devs)` -/
  sigma2_devs : Nat → α
  /-- Input `PARAMETER_VECTOR(theta)` -/
  theta : Nat → α
  /-- Input `PARAMETER_VECTOR(mu_devs)` -/
  mu_devs : Nat → α
  /-- Input `PARAMETER(log_sigma_mu_devs)` -/
  log_sigma_mu_devs : α
  /-- Input `PARAMETER(log_tdf_1)` -/
  log_tdf_1 : α
  /-- Input `PARAMETER(log_tdf_2)` -/
  log_tdf_2 : α
  /-- Input `PARAMETER(log_beta_1)` -/
  log_beta_1 : α
  /-- Input `PARAMETER(log_beta_2)` -/
  log_beta_2 : α
  /-- Input `PARAMETER(log_obs_sigma)` -/
  log_obs_sigma : α
  /-- Input `PARAMETER_VECTOR(b_mu)` -/
  b_mu : Nat → α
  /-- Input `PARAMETER_VECTOR(b_sig1)` -/
  b_sig1 : Nat → α
  /-- Input `PARAMETER_VECTOR(b_sig2)` -/
  b_sig2 : Nat → α

/-- The local variables of `operator()` that the loops update.  A vector the
code declares without a value (`vector<Type> sigma2(nLevels)`) starts
zero-filled here, and so does the scalar `dens`. -/
structure State (α : Type) where
  /-- Local `nll`, the running sum of log-density terms -/
  nll : α
  /-- Local `mu` -/
  mu : Nat → α
  /-- Local `sigma1` -/
  sigma1 : Nat → α
  /-- Local `sigma2` -/
  sigma2 : Nat → α
  /-- Local `alpha1` -/
  alpha1 : Nat → α
  /-- Local `alpha2` -/
  alpha2 : Nat → α
  /-- Local `lower25` -/
  lower25 : Nat → α
  /-- Local `upper75` -/
  upper75 : Nat → α
  /-- Local `range` -/
  range : Nat → α
  /-- Local `log_dens` -/
  log_dens : Nat → α
  /-- Local `pred` -/
  pred : Nat → α
  /-- Local `year_log_tot` -/
  year_log_tot : Nat → α
  /-- Local `year_tot` -/
  year_tot : Nat → α
  /-- Local `dens` -/
  dens : α

/-- The loop `for(i = 0; i < n; i++) body`: runs `body 0`, ..., `body (n-1)` in
this order on the state. -/
def forLoop {σ : Type} : Nat → (Nat → σ → σ) → σ → σ
  | 0, _, s => s
  | k + 1, body, s => body k (forLoop k body s)

/-- The assignment `v(i) = a`. -/
def setv {α : Type} (v : Nat → α) (i : Nat) (a : α) : Nat → α :=
  fun j => if j = i then a else v j

section Objective

variable {α : Type} [LinearOrderedField α]

/-- The matrix-vector product `m * b` of Eigen, row `i`. -/
def matVec (m : Nat → Nat → α) (cols : Nat) (b : Nat → α) (i : Nat) : α :=
  forLoop cols (fun j acc => acc + m i j * b j) 0

/-- The 0-based group `years(i)-1` of observation `i`. -/
def yearIdx (d : Data α) (i : Nat) : Nat := (d.years i - 1).toNat

/-- Function `tdf_1` (line 215). -/
def tdf_1 (P : Prims α) (θ : Params α) : α := P.exp θ.log_tdf_1 + 2

/-- Function `tdf_2` (lines 216, 219-220). -/
def tdf_2 (P : Prims α) (d : Data α) (θ : Params α) : α :=
  if d.share_shape = 1 then tdf_1 P θ else P.exp θ.log_tdf_2 + 2

/-- Function `beta_1` (line 217). -/
def beta_1 (P : Prims α) (θ : Params α) : α := P.exp θ.log_beta_1

/-- Function `beta_2` (lines 218, 219-221). -/
def beta_2 (P : Prims α) (d : Data α) (θ : Params α) : α :=
  if d.share_shape = 1 then beta_1 P θ else P.exp θ.log_beta_2

/-- Function `obs_sigma` (line 214). -/
def obs_sigma (P : Prims α) (θ : Params α) : α := P.exp θ.log_obs_sigma

/-- The right-hand side of lines 248 and 250:
`sqrt(exp(lgamma(1.0/beta)) / exp(lgamma(3.0/beta)))`. -/
def betaRatioOf (P : Prims α) (beta : α) : α :=
  P.sqrt (P.exp (P.lgamma (1/beta)) / P.exp (P.lgamma (3/beta)))

/-- Function `beta_ratio` (lines 246-252), a vector of size 2 declared without a value. -/
def beta_ratio (P : Prims α) (d : Data α) (θ : Params α) : Nat → α :=
  let br : Nat → α := fun _ => 0
  if d.tail_model = 2 then
    let br := setv br 0 (betaRatioOf P (beta_1 P θ))
    if d.asymmetric = 1 then setv br 1 (betaRatioOf P (beta_2 P d θ)) else br
  else br

/-- The state at line 211: `nll = 0`, every local vector without a value. -/
def initState : State α :=
  { nll := 0, mu := fun _ => 0, sigma1 := fun _ => 0, sigma2 := fun _ => 0,
    alpha1 := fun _ => 0, alpha2 := fun _ => 0, lower25 := fun _ => 0,
    upper75 := fun _ => 0, range := fun _ => 0, log_dens := fun _ => 0,
    pred := fun _ => 0, year_log_tot := fun _ => 0, year_tot := fun _ => 0, dens := 0 }

/-- Lines 224-233: the priors on the shape parameters. -/
def priorStep (P : Prims α) (d : Data α) (θ : Params α) (s : State α) : State α :=
  let s : State α :=
    if d.use_t_prior ≠ 0 ∧ d.tail_model = 1 then
      let s : State α :=
        { s with nll := s.nll + P.dgamma (tdf_1 P θ) (d.nu_prior 0) (d.nu_prior 1) }
      if d.asymmetric = 1 then
        { s with nll := s.nll + P.dgamma (tdf_2 P d θ) (d.nu_prior 0) (d.nu_prior 1) }
      else s
    else s
  if d.use_beta_prior ≠ 0 ∧ d.tail_model = 2 then
    let s : State α :=
      { s with nll := s.nll + P.dgamma (beta_1 P θ) (d.beta_prior 0) (d.beta_prior 1) }
    if d.asymmetric = 1 then
      { s with nll := s.nll + P.dgamma (beta_2 P d θ) (d.beta_prior 0) (d.beta_prior 1) }
    else s
  else s

/-- Lines 255-266, the body of the random-effects loop at group `i`. -/
def reStep (P : Prims α) (d : Data α) (θ : Params α) (i : Nat) (s : State α) : State α :=
  let s : State α :=
    if d.est_mu_re = 1 then
      { s with nll := s.nll + P.dnorm (θ.mu_devs i) 0 (P.exp θ.log_sigma_mu_devs) }
    else s
  if d.est_sigma_re = 1 then
    let s : State α :=
      { s with nll := s.nll + P.dnorm (θ.sigma1_devs i) 0 (P.exp θ.log_sigma1_sd) }
    if d.asymmetric = 1 then
      { s with nll := s.nll + P.dnorm (θ.sigma2_devs i) 0 (P.exp θ.log_sigma2_sd) }
    else s
  else s

/-- Lines 268-271: the fixed effects for `mu` and both `sigma`s. -/
def fixedStep (d : Data α) (θ : Params α) (s : State α) : State α :=
  let s : State α :=
    { s with mu := matVec d.mu_mat d.mu_cols θ.b_mu,
             sigma1 := matVec d.sig_mat d.sig_cols θ.b_sig1 }
  if d.asymmetric = 1 then { s with sigma2 := matVec d.sig_mat d.sig_cols θ.b_sig2 } else s

/-- Lines 275-278: the random deviations of the scales of group `i`. -/
def devStep (d : Data α) (θ : Params α) (i : Nat) (s : State α) : State α :=
  if d.est_sigma_re = 1 then
    let s : State α := { s with sigma1 := setv s.sigma1 i (s.sigma1 i + θ.sigma1_devs i) }
    if d.asymmetric = 1 then
      { s with sigma2 := setv s.sigma2 i (s.sigma2 i + θ.sigma2_devs i) }
    else s
  else s

/-- Lines 280-287: the `alpha`s of the generalized normal at loop index `i`. -/
def alphaStep (P : Prims α) (d : Data α) (θ : Params α) (i : Nat) (s : State α) : State α :=
  if d.tail_model = 2 then
    let s : State α :=
      { s with alpha1 := setv s.alpha1 i (s.sigma1 (yearIdx d i) * beta_ratio P d θ 0) }
    if d.asymmetric = 1 then
      { s with alpha2 := setv s.alpha2 i (s.sigma2 (yearIdx d i) * beta_ratio P d θ 1) }
    else s
  else s

/-- Lines 289-292: the random deviation of the location of group `i`. -/
def muStep (d : Data α) (θ : Params α) (i : Nat) (s : State α) : State α :=
  if d.est_mu_re = 1 then { s with mu := setv s.mu i (s.mu i + θ.mu_devs i) } else s

/-- Lines 294-323: the quartiles of group `i` under the active tail model. -/
def quartileStep (P : Prims α) (d : Data α) (θ : Params α) (i : Nat) (s : State α) : State α :=
  let tdf_1 : α := tdf_1 P θ
  let tdf_2 : α := tdf_2 P d θ
  let beta_1 : α := beta_1 P θ
  let beta_2 : α := beta_2 P d θ
  let beta_ratio : Nat → α := beta_ratio P d θ
  let s : State α :=
    if d.tail_model = 0 then
      if d.asymmetric = 0 then
        { s with lower25 := setv s.lower25 i (P.qnorm 0.25 (s.mu i) (s.sigma1 i)),
                 upper75 := setv s.upper75 i (P.qnorm 0.75 (s.mu i) (s.sigma1 i)) }
      else
        { s with lower25 := setv s.lower25 i (qdnorm P 0.25 (s.mu i) (s.sigma1 i) (s.sigma2 i)),
                 upper75 := setv s.upper75 i (qdnorm P 0.75 (s.mu i) (s.sigma1 i) (s.sigma2 i)) }
    else s
  let s : State α :=
    if d.tail_model = 1 then
      if d.asymmetric = 0 then
        { s with lower25 := setv s.lower25 i (qthill P 0.25 tdf_1 (s.mu i) (s.sigma1 i)),
                 upper75 := setv s.upper75 i (qthill P 0.75 tdf_1 (s.mu i) (s.sigma1 i)) }
      else
        { s with
            lower25 := setv s.lower25 i
              (qdt P 0.25 (s.mu i) (s.sigma1 i) (s.sigma2 i) tdf_1 tdf_2),
            upper75 := setv s.upper75 i
              (qdt P 0.75 (s.mu i) (s.sigma1 i) (s.sigma2 i) tdf_1 tdf_2) }
    else s
  if d.tail_model = 2 then
    if d.asymmetric = 0 then
      { s with
          lower25 := setv s.lower25 i
            (qgnorm P 0.25 (s.mu i) (s.sigma1 i * beta_ratio 0) beta_1),
          upper75 := setv s.upper75 i
            (qgnorm P 0.75 (s.mu i) (s.sigma1 i * beta_ratio 0) beta_1) }
    else
      { s with
          lower25 := setv s.lower25 i
            (qdgnorm P 0.25 (s.mu i) (s.sigma1 i) (s.sigma2 i) (beta_ratio 0) (beta_ratio 1)
              beta_1 beta_2),
          upper75 := setv s.upper75 i
            (qdgnorm P 0.75 (s.mu i) (s.sigma1 i) (s.sigma2 i) (beta_ratio 0) (beta_ratio 1)
              beta_1 beta_2) }
  else s

/-- Line 324: `range(i) = upper75(i) - lower25(i)`. -/
def rangeStep (i : Nat) (s : State α) : State α :=
  { s with range := setv s.range i (s.upper75 i - s.lower25 i) }

/-- Lines 273-325, the body of the per-group loop at group `i`: random
deviations, `alpha`, the quartiles and their range, in the order of the code. -/
def groupStep (P : Prims α) (d : Data α) (θ : Params α) (i : Nat) (s : State α) : State α :=
  rangeStep i (quartileStep P d θ i (muStep d θ i (alphaStep P d θ i (devStep d θ i s))))

/-- Lines 329-357 and 369-399: the log-density of the active tail model at
`xv` for group `g`, as both the prediction loop and the annual loop compute it.
`old` is the value the target variable holds before: the asymmetric branch
assigns nothing when `tail_model` is none of 0, 1, 2. -/
def tailDens (P : Prims α) (d : Data α) (θ : Params α) (s : State α) (xv : α) (g : Nat)
    (old : α) : α :=
  let tdf_1 : α := tdf_1 P θ
  let tdf_2 : α := tdf_2 P d θ
  let beta_1 : α := beta_1 P θ
  let beta_2 : α := beta_2 P d θ
  if d.asymmetric = 1 then
    let r : α := old
    let r : α := if d.tail_model = 0 then ddnorm P xv (s.mu g) (s.sigma1 g) (s.sigma2 g) else r
    let r : α :=
      if d.tail_model = 1 then ddt P xv (s.mu g) (s.sigma1 g) (s.sigma2 g) tdf_1 tdf_2 else r
    let r : α :=
      if d.tail_model = 2 then
        ddgnorm P xv (s.mu g) (s.alpha1 g) (s.alpha2 g) beta_1 beta_2 (s.sigma1 g) (s.sigma2 g)
      else r
    r
  else
    if d.tail_model = 0 then P.dnorm xv (s.mu g) (s.sigma1 g)
    else if d.tail_model = 1 then P.dt ((xv - s.mu g) / s.sigma1 g) tdf_1 - P.log (s.sigma1 g)
    else dgnorm P xv (s.mu g) (s.alpha1 g) beta_1

/-- Lines 328-358, the body of the prediction loop at observation `i`. -/
def predStep (P : Prims α) (d : Data α) (θ : Params α) (i : Nat) (s : State α) : State α :=
  let s : State α :=
    { s with
        log_dens := setv s.log_dens i (tailDens P d θ s (d.x i) (yearIdx d i) (s.log_dens i)) }
  { s with pred := setv s.pred i (s.log_dens i + θ.theta (yearIdx d i)) }

/-- Lines 367-400, the body of the inner annual loop for group `i` at day
`t = k + 1`. -/
def dayStep (P : Prims α) (d : Data α) (θ : Params α) (i k : Nat) (s : State α) : State α :=
  let t : α := ((k + 1 : Nat) : α)
  let s : State α := { s with dens := tailDens P d θ s t i s.dens }
  let s : State α :=
    { s with year_log_tot := setv s.year_log_tot i (s.year_log_tot i + s.dens + θ.theta i) }
  { s with year_tot := setv s.year_tot i (s.year_tot i + P.exp (s.dens + θ.theta i)) }

/-- Lines 364-401, the body of the outer annual loop at group `i`. -/
def yearStep (P : Prims α) (d : Data α) (θ : Params α) (i : Nat) (s : State α) : State α :=
  let s : State α := { s with year_log_tot := setv s.year_log_tot i 0 }
  let s : State α := { s with year_tot := setv s.year_tot i 0 }
  forLoop 365 (dayStep P d θ i) s

/-- Lines 412-417, the body of the Poisson loop at observation `i`. -/
def poisStep (P : Prims α) (d : Data α) (i : Nat) (s : State α) : State α :=
  let s : State α := if s.pred i > 20 then { s with pred := setv s.pred i 20 } else s
  { s with nll := s.nll + P.dpois (d.y i) (P.exp (s.pred i)) }

/-- Lines 418-425, the body of the negative-binomial loop at observation `i`. -/
def nbStep (P : Prims α) (d : Data α) (θ : Params α) (i : Nat) (s : State α) : State α :=
  let s1 : α := s.pred i
  let s2 : α := 2 * s1 - θ.log_obs_sigma
  { s with nll := s.nll + P.dnbinom_robust (d.y i) s1 s2 }

/-- Lines 426-430, the body of the binomial loop at observation `i`. -/
def binomStep (P : Prims α) (d : Data α) (i : Nat) (s : State α) : State α :=
  { s with nll := s.nll + P.dbinom_robust (d.y i) 1 (s.pred i) }

/-- The vectorised `sum(dnorm(v, pred, obs_sigma, true))` of lines 410 and 433. -/
def sumDnorm (P : Prims α) (n : Nat) (v pred : Nat → α) (sd : α) : α :=
  forLoop n (fun i acc => acc + P.dnorm (v i) (pred i) sd) 0

/-- Lines 404-434: the observation likelihood. -/
def likStep (P : Prims α) (d : Data α) (θ : Params α) (s : State α) : State α :=
  let s : State α :=
    if d.family = 1 then
      { s with nll := s.nll + sumDnorm P d.n d.y s.pred (obs_sigma P θ) }
    else s
  let s : State α := if d.family = 2 then forLoop d.n (poisStep P d) s else s
  let s : State α := if d.family = 3 then forLoop d.n (nbStep P d θ) s else s
  let s : State α := if d.family = 4 then forLoop d.n (binomStep P d) s else s
  if d.family = 5 then
    { s with nll := s.nll + sumDnorm P d.n (fun i => P.log (d.y i)) s.pred (obs_sigma P θ) }
  else s

/-- The state at line 326, after the per-group loop: priors, random-effect
penalties, fixed effects and the per-group assembly (scales, `alpha`,
locations, quartiles, range). -/
def afterGroups (P : Prims α) (d : Data α) (θ : Params α) : State α :=
  forLoop d.nLevels (groupStep P d θ)
    (fixedStep d θ (forLoop d.nLevels (reStep P d θ) (priorStep P d θ initState)))

/-- The state before the likelihood (line 403): priors, random-effect
penalties, parameter assembly, quartiles, predictions and annual totals. -/
def preLik (P : Prims α) (d : Data α) (θ : Params α) : State α :=
  let s : State α := priorStep P d θ initState
  let s : State α := forLoop d.nLevels (reStep P d θ) s
  let s : State α := fixedStep d θ s
  let s : State α := forLoop d.nLevels (groupStep P d θ) s
  let s : State α := forLoop d.n (predStep P d θ) s
  forLoop d.nLevels (yearStep P d θ) s

/-- The state at the `return` of `operator()` (line 489): every vector that
is reported holds its reported value. -/
def finalState (P : Prims α) (d : Data α) (θ : Params α) : State α :=
  likStep P d θ (preLik P d θ)

/-- The value `operator()` returns (line 489): `-nll`. -/
def objective (P : Prims α) (d : Data α) (θ : Params α) : α :=
  -(finalState P d θ).nll

end Objective

/-! ## The numeric environment over `ℝ` -/

section RealModel

open MeasureTheory ProbabilityTheory

/-- The distribution function of the standard normal law. -/
noncomputable def stdNormalCDF (x : ℝ) : ℝ := (gaussianReal 0 1 (Set.Iic x)).toReal

/-- The quantile function of the standard normal law: the least `x` whose
distribution function reaches `p`. -/
noncomputable def stdNormalQuantile (p : ℝ) : ℝ := sInf {x : ℝ | p ≤ stdNormalCDF x}

/-- The quantile function of the gamma law with the given shape and scale:
the least `x ≥ 0` at which the distribution function reaches `p`. -/
noncomputable def gammaQuantile (p shape scale : ℝ) : ℝ :=
  sInf {x : ℝ | 0 ≤ x ∧ p ≤ (gammaMeasure shape (1 / scale) (Set.Iic x)).toReal}

/-- The Normal(`mu`, `sd`) log-density at `x`, from the density of Mathlib. -/
noncomputable def normalLogPdf (x mu sd : ℝ) : ℝ :=
  Real.log (gaussianPDFReal mu ⟨sd ^ 2, sq_nonneg sd⟩ x)

/-- The Taylor polynomial of degree `n` of `exp (-u)`. -/
noncomputable def expNegPoly (n : ℕ) (u : ℝ) : ℝ :=
  ∑ k in Finset.range (n + 1), (-u) ^ k / (k.factorial : ℝ)

/-- The integral over `[-x, 0]` of the Taylor polynomial of degree `n` of
`exp (-t²/2)`. -/
noncomputable def gaussPolyInt (n : ℕ) (x : ℝ) : ℝ :=
  ∑ k in Finset.range (n + 1),
    (-1 / 2 : ℝ) ^ k / (k.factorial : ℝ) * (x ^ (2 * k + 1) / ((2 * k + 1 : ℕ) : ℝ))

/-- Modelled from the spec: the special-function primitives "supplied by the
numeric environment" (spec §2), which `phenomix.cpp` takes from `<TMB.hpp>`
and which are not part of the repository.  Each is the exact real function
the library routine of that name approximates: `dnorm`, `dt`, `dgamma`,
`dpois`, `dnbinom_robust` and `dbinom_robust` are the closed-form
log-densities, `qnorm` and `qgamma` the true quantile functions, `lgamma` is
`log |Γ|`, `pow` the real power. -/
noncomputable def Rprims : Prims ℝ where
  exp := Real.exp
  log := Real.log
  sqrt := Real.sqrt
  pow := fun x y => x ^ y
  fabs := fun x => |x|
  lgamma := fun x => Real.log |Real.Gamma x|
  dnorm := fun x mean sd =>
    -Real.log (Real.sqrt (2 * Real.pi)) - Real.log sd - 0.5 * ((x - mean) / sd) ^ 2
  qnorm := fun p mean sd => mean + sd * stdNormalQuantile p
  dt := fun x df =>
    Real.log |Real.Gamma ((df + 1) / 2)| - 1 / 2 * Real.log (df * Real.pi)
      - Real.log |Real.Gamma (df / 2)| - (df + 1) / 2 * Real.log (1 + x * x / df)
  dgamma := fun y shape scale =>
    -Real.log |Real.Gamma shape| + (shape - 1) * Real.log y - y / scale
      - shape * Real.log scale
  qgamma := gammaQuantile
  dpois := fun x lambda => -lambda + x * Real.log lambda - Real.log |Real.Gamma (x + 1)|
  dnbinom_robust := fun x log_mu log_var_minus_mu =>
    let log_var : ℝ := Real.log (Real.exp log_mu + Real.exp log_var_minus_mu)
    let n : ℝ := Real.exp (2 * log_mu - log_var_minus_mu)
    Real.log |Real.Gamma (x + n)| - Real.log |Real.Gamma n| - Real.log |Real.Gamma (x + 1)|
      + n * (log_mu - log_var) + x * (log_var_minus_mu - log_var)
  dbinom_robust := fun k size logit_p =>
    k * (-Real.log (1 + Real.exp (-logit_p))) + (size - k) * (-Real.log (1 + Real.exp logit_p))
      + (if size > 1 then
          Real.log |Real.Gamma (size + 1)| - Real.log |Real.Gamma (k + 1)|
            - Real.log |Real.Gamma (size - k + 1)|
        else 0)

end RealModel

/-! ## The objective as the specification words it -/

section SpecSide

variable {α : Type} [LinearOrderedField α]

/-- The log-likelihood of one observation `yv` at predicted log-intensity
`pr` under the selected observation family (spec §4.4, the table): Gaussian,
Poisson with `pr` clamped at 20, negative binomial, binomial, lognormal; no
term when `family` selects none of the five. -/
def famLogLik (P : Prims α) (d : Data α) (θ : Params α) (yv pr : α) : α :=
  if d.family = 1 then P.dnorm yv pr (obs_sigma P θ)
  else if d.family = 2 then P.dpois yv (P.exp (min pr 20))
  else if d.family = 3 then P.dnbinom_robust yv pr (2 * pr - θ.log_obs_sigma)
  else if d.family = 4 then P.dbinom_robust yv 1 pr
  else if d.family = 5 then P.dnorm (P.log yv) pr (obs_sigma P θ)
  else 0

/-- The sum of the gamma log-prior terms (spec §4.6): on `tdf_1` iff
`use_t_prior` is set and `tail_model = 1`, on `beta_1` iff `use_beta_prior` is
set and `tail_model = 2`, and on the side-2 parameter only when
`asymmetric = 1`. -/
def priorSum (P : Prims α) (d : Data α) (θ : Params α) : α :=
  (if d.use_t_prior ≠ 0 ∧ d.tail_model = 1 then
      P.dgamma (tdf_1 P θ) (d.nu_prior 0) (d.nu_prior 1)
        + (if d.asymmetric = 1 then P.dgamma (tdf_2 P d θ) (d.nu_prior 0) (d.nu_prior 1) else 0)
    else 0)
  + (if d.use_beta_prior ≠ 0 ∧ d.tail_model = 2 then
      P.dgamma (beta_1 P θ) (d.beta_prior 0) (d.beta_prior 1)
        + (if d.asymmetric = 1 then P.dgamma (beta_2 P d θ) (d.beta_prior 0) (d.beta_prior 1)
            else 0)
    else 0)

/-- The random-effect penalty of group `i` (spec §4.6): the zero-mean normal
log-density of `mu_devs(i)` iff `est_mu_re = 1`, of `sigma1_devs(i)` iff
`est_sigma_re = 1`, of `sigma2_devs(i)` iff `est_sigma_re = 1` and
`asymmetric = 1`. -/
def rePenalty (P : Prims α) (d : Data α) (θ : Params α) (i : Nat) : α :=
  (if d.est_mu_re = 1 then P.dnorm (θ.mu_devs i) 0 (P.exp θ.log_sigma_mu_devs) else 0)
  + (if d.est_sigma_re = 1 then P.dnorm (θ.sigma1_devs i) 0 (P.exp θ.log_sigma1_sd) else 0)
  + (if d.est_sigma_re = 1 ∧ d.asymmetric = 1 then
      P.dnorm (θ.sigma2_devs i) 0 (P.exp θ.log_sigma2_sd) else 0)

/-- The sum of the random-effect penalties over all groups. -/
def reSum (P : Prims α) (d : Data α) (θ : Params α) : α :=
  ∑ i in Finset.range d.nLevels, rePenalty P d θ i

/-- The sum over all observations of the family log-likelihood of `y(i)` given
`pred(i)`, the prediction `log_dens(i) + theta(years(i)-1)` of lines 328-358. -/
def likSum (P : Prims α) (d : Data α) (θ : Params α) : α :=
  ∑ i in Finset.range d.n, famLogLik P d θ (d.y i) ((preLik P d θ).pred i)

/-- A small input: one group with location 100 and scales 1 (left) and 2
(right), three observations at `x = 95, 100, 105`, no random effects, no
priors, all log-parameters 0.  The tail model, the asymmetry flag and the
family are left open. -/
def demoData (tail_model asymmetric family : Int) : Data α :=
  { y := fun _ => 1, n := 3, x := fun i => 95 + 5 * (i : α), years := fun _ => 1,
    nLevels := 1, asymmetric := asymmetric, family := family, tail_model := tail_model,
    est_sigma_re := 0, est_mu_re := 0, mu_mat := fun _ _ => 1, mu_cols := 1,
    sig_mat := fun _ _ => 1, sig_cols := 1, share_shape := 0, use_t_prior := 0,
    use_beta_prior := 0, nu_prior := fun _ => 2, beta_prior := fun _ => 2 }

/-- A second small input: two groups with locations 100 and fixed-effect
scales 1 and 2 (row `i` of `sig_mat` is `i + 1`), two observations of which
the first belongs to group 2 and the second to group 1, no random effects, no
priors. -/
def demoData2 (tail_model asymmetric family : Int) : Data α :=
  { y := fun _ => 1, n := 2, x := fun i => 95 + 5 * (i : α),
    years := fun i => if i = 0 then 2 else 1, nLevels := 2, asymmetric := asymmetric,
    family := family, tail_model := tail_model, est_sigma_re := 0, est_mu_re := 0,
    mu_mat := fun _ _ => 1, mu_cols := 1, sig_mat := fun i _ => (i : α) + 1, sig_cols := 1,
    share_shape := 0, use_t_prior := 0, use_beta_prior := 0, nu_prior := fun _ => 2,
    beta_prior := fun _ => 2 }

/-- The parameters that go with `demoData` and `demoData2`. -/
def demoParams : Params α :=
  { log_sigma1_sd := 0, sigma1_devs := fun _ => 0, log_sigma2_sd := 0,
    sigma2_devs := fun _ => 0, theta := fun _ => 0, mu_devs := fun _ => 0,
    log_sigma_mu_devs := 0, log_tdf_1 := 0, log_tdf_2 := 0, log_beta_1 := 0,
    log_beta_2 := 0, log_obs_sigma := 0, b_mu := fun _ => 100, b_sig1 := fun _ => 1,
    b_sig2 := fun _ => 2 }

/-- The parameters of `demoParams` with every second-side parameter changed:
`b_sig2`, `sigma2_devs`, `log_sigma2_sd`, `log_tdf_2` and `log_beta_2`. -/
def demoParams2 : Params α :=
  { log_sigma1_sd := 0, sigma1_devs := fun _ => 0, log_sigma2_sd := 3,
    sigma2_devs := fun _ => 4, theta := fun _ => 0, mu_devs := fun _ => 0,
    log_sigma_mu_devs := 0, log_tdf_1 := 0, log_tdf_2 := 5, log_beta_1 := 0,
    log_beta_2 := 6, log_obs_sigma := 0, b_mu := fun _ => 100, b_sig1 := fun _ => 1,
    b_sig2 := fun _ => 7 }

end SpecSide

/-! ## General lemmas -/

section LoopLemmas

variable {α : Type} [LinearOrderedField α]

theorem forLoop_succ {σ : Type} (n : Nat) (body : Nat → σ → σ) (s : σ) :
    forLoop (n + 1) body s = body n (forLoop n body s) := rfl

theorem forLoop_preserve {σ β : Type} (f : σ → β) (body : Nat → σ → σ)
    (h : ∀ i s, f (body i s) = f s) (n : Nat) (s : σ) : f (forLoop n body s) = f s := by
  induction n with
  | zero => rfl
  | succ k ih => rw [forLoop_succ, h, ih]

/-- An accumulating loop is a finite sum. -/
theorem forLoop_add (f : Nat → α) (n : Nat) (a : α) :
    forLoop n (fun i acc => acc + f i) a = a + ∑ i in Finset.range n, f i := by
  induction n with
  | zero => simp [forLoop]
  | succ k ih => rw [forLoop_succ, ih, Finset.sum_range_succ, add_assoc]

/-- A loop whose body adds a state-independent term to `nll`. -/
theorem forLoop_nll (body : Nat → State α → State α) (f : Nat → α)
    (h : ∀ i s, (body i s).nll = s.nll + f i) (n : Nat) (s : State α) :
    (forLoop n body s).nll = s.nll + ∑ i in Finset.range n, f i := by
  induction n with
  | zero => simp [forLoop]
  | succ k ih => rw [forLoop_succ, h, ih, Finset.sum_range_succ, add_assoc]

theorem priorStep_nll (P : Prims α) (d : Data α) (θ : Params α) (s : State α) :
    (priorStep P d θ s).nll = s.nll + priorSum P d θ := by
  unfold priorStep priorSum
  simp only []
  split_ifs <;> simp only [add_zero, zero_add, add_assoc]

theorem reStep_nll (P : Prims α) (d : Data α) (θ : Params α) (i : Nat) (s : State α) :
    (reStep P d θ i s).nll = s.nll + rePenalty P d θ i := by
  unfold reStep rePenalty
  simp only []
  by_cases h1 : d.est_mu_re = 1 <;>
  by_cases h2 : d.est_sigma_re = 1 <;>
  by_cases h3 : d.asymmetric = 1 <;>
  simp only [h1, h2, h3, if_true, if_false, and_self, and_false, false_and, add_zero,
    zero_add, add_assoc]

theorem fixedStep_nll (d : Data α) (θ : Params α) (s : State α) :
    (fixedStep d θ s).nll = s.nll := by
  unfold fixedStep
  split_ifs <;> rfl

theorem devStep_nll (d : Data α) (θ : Params α) (i : Nat) (s : State α) :
    (devStep d θ i s).nll = s.nll := by
  unfold devStep
  split_ifs <;> rfl

theorem alphaStep_nll (P : Prims α) (d : Data α) (θ : Params α) (i : Nat) (s : State α) :
    (alphaStep P d θ i s).nll = s.nll := by
  unfold alphaStep
  split_ifs <;> rfl

theorem muStep_nll (d : Data α) (θ : Params α) (i : Nat) (s : State α) :
    (muStep d θ i s).nll = s.nll := by
  unfold muStep
  split_ifs <;> rfl

theorem quartileStep_nll (P : Prims α) (d : Data α) (θ : Params α) (i : Nat) (s : State α) :
    (quartileStep P d θ i s).nll = s.nll := by
  unfold quartileStep
  simp only []
  split_ifs <;> rfl

theorem groupStep_nll (P : Prims α) (d : Data α) (θ : Params α) (i : Nat) (s : State α) :
    (groupStep P d θ i s).nll = s.nll := by
  unfold groupStep rangeStep
  simp only [quartileStep_nll, muStep_nll, alphaStep_nll, devStep_nll]

theorem predStep_nll (P : Prims α) (d : Data α) (θ : Params α) (i : Nat) (s : State α) :
    (predStep P d θ i s).nll = s.nll := rfl

theorem dayStep_nll (P : Prims α) (d : Data α) (θ : Params α) (i k : Nat) (s : State α) :
    (dayStep P d θ i k s).nll = s.nll := rfl

theorem yearStep_nll (P : Prims α) (d : Data α) (θ : Params α) (i : Nat) (s : State α) :
    (yearStep P d θ i s).nll = s.nll := by
  unfold yearStep
  simp only []
  rw [forLoop_preserve State.nll _ (dayStep_nll P d θ i)]

/-- The value of `nll` at line 403, before the likelihood. -/
theorem preLik_nll (P : Prims α) (d : Data α) (θ : Params α) :
    (preLik P d θ).nll = priorSum P d θ + reSum P d θ := by
  unfold preLik
  simp only []
  rw [forLoop_preserve State.nll _ (yearStep_nll P d θ),
    forLoop_preserve State.nll _ (predStep_nll P d θ),
    forLoop_preserve State.nll _ (groupStep_nll P d θ), fixedStep_nll,
    forLoop_nll _ _ (reStep_nll P d θ), priorStep_nll]
  simp [initState, reSum]


theorem poisStep_pred_other (P : Prims α) (d : Data α) (i j : Nat) (hj : j ≠ i) (s : State α) :
    (poisStep P d i s).pred j = s.pred j := by
  unfold poisStep
  simp only []
  split_ifs <;> simp [setv, hj]

theorem poisStep_nll (P : Prims α) (d : Data α) (i : Nat) (s : State α) :
    (poisStep P d i s).nll = s.nll + P.dpois (d.y i) (P.exp (min (s.pred i) 20)) := by
  unfold poisStep
  simp only []
  split_ifs with h
  · simp [setv, min_eq_right h.le]
  · simp [min_eq_left (not_lt.mp h)]

/-- The Poisson loop: the clamp at step `i` touches `pred(i)` only, so every
step reads the prediction of the prediction loop. -/
theorem poisLoop (P : Prims α) (d : Data α) (n : Nat) (s : State α) :
    (forLoop n (poisStep P d) s).nll
        = s.nll + ∑ i in Finset.range n, P.dpois (d.y i) (P.exp (min (s.pred i) 20))
      ∧ ∀ j, n ≤ j → (forLoop n (poisStep P d) s).pred j = s.pred j := by
  induction n with
  | zero => simp [forLoop]
  | succ k ih =>
    obtain ⟨ih1, ih2⟩ := ih
    constructor
    · rw [forLoop_succ, poisStep_nll, ih1, ih2 k le_rfl, Finset.sum_range_succ, add_assoc]
    · intro j hj
      rw [forLoop_succ, poisStep_pred_other P d k j (by omega), ih2 j (by omega)]

theorem nbStep_nll (P : Prims α) (d : Data α) (θ : Params α) (n : Nat) (s : State α) :
    (forLoop n (nbStep P d θ) s).nll
        = s.nll + ∑ i in Finset.range n,
            P.dnbinom_robust (d.y i) (s.pred i) (2 * s.pred i - θ.log_obs_sigma)
      ∧ (forLoop n (nbStep P d θ) s).pred = s.pred := by
  induction n with
  | zero => simp [forLoop]
  | succ k ih =>
    obtain ⟨ih1, ih2⟩ := ih
    constructor
    · rw [forLoop_succ]
      simp only [nbStep]
      rw [ih1, ih2, Finset.sum_range_succ, add_assoc]
    · rw [forLoop_succ]
      simp only [nbStep]
      exact ih2

theorem binomStep_nll (P : Prims α) (d : Data α) (n : Nat) (s : State α) :
    (forLoop n (binomStep P d) s).nll
        = s.nll + ∑ i in Finset.range n, P.dbinom_robust (d.y i) 1 (s.pred i)
      ∧ (forLoop n (binomStep P d) s).pred = s.pred := by
  induction n with
  | zero => simp [forLoop]
  | succ k ih =>
    obtain ⟨ih1, ih2⟩ := ih
    constructor
    · rw [forLoop_succ]
      simp only [binomStep]
      rw [ih1, ih2, Finset.sum_range_succ, add_assoc]
    · rw [forLoop_succ]
      simp only [binomStep]
      exact ih2

/-- The likelihood block adds the family log-likelihood of every observation. -/
theorem likStep_nll (P : Prims α) (d : Data α) (θ : Params α) (s : State α) :
    (likStep P d θ s).nll
      = s.nll + ∑ i in Finset.range d.n, famLogLik P d θ (d.y i) (s.pred i) := by
  unfold likStep famLogLik sumDnorm
  simp only []
  by_cases h1 : d.family = 1
  · simp [h1, forLoop_add]
  by_cases h2 : d.family = 2
  · simp [h2, (poisLoop P d d.n s).1]
  by_cases h3 : d.family = 3
  · simp [h3, (nbStep_nll P d θ d.n s).1]
  by_cases h4 : d.family = 4
  · simp [h4, (binomStep_nll P d d.n s).1]
  by_cases h5 : d.family = 5
  · simp [h5, forLoop_add]
  · simp [h1, h2, h3, h4, h5]

end LoopLemmas

section QuantileLemmas

variable {α : Type} [LinearOrderedField α]

/-- The code reflects `p` before it takes the sign: `qgnorm` at `1 - p` is `qgnorm` at `p`. -/
theorem qgnorm_reflect (P : Prims α) (p mu alpha beta : α) :
    qgnorm P (1 - p) mu alpha beta = qgnorm P p mu alpha beta := by
  unfold qgnorm
  rcases lt_trichotomy p 0.5 with h | h | h
  · have h1 : (1 : α) - p > 0.5 := by norm_num at h ⊢; linarith
    have h2 : ¬ p > 0.5 := not_lt.mpr h.le
    simp only [h1, h2, if_true, if_false, sub_sub_cancel]
  · subst h
    norm_num
  · have h1 : ¬ ((1 : α) - p > 0.5) := by norm_num at h ⊢; linarith
    simp only [h1, h, if_true, if_false]

/-- The upper quartile `qgnorm` returns is the lower one. -/
theorem qgnorm_upper_eq_lower (P : Prims α) (mu alpha beta : α) :
    qgnorm P 0.75 mu alpha beta = qgnorm P 0.25 mu alpha beta := by
  rw [← qgnorm_reflect P 0.25]
  norm_num

/-- At `p = 0.5` the sign is 0 and `qgnorm` returns `mu`. -/
theorem qgnorm_half (P : Prims α) (mu alpha beta : α) :
    qgnorm P 0.5 mu alpha beta = mu := by
  simp [qgnorm]

theorem quartileStep_gnorm (P : Prims α) (d : Data α) (θ : Params α)
    (htail : d.tail_model = 2) (hasym : d.asymmetric = 0) (i : Nat) (s : State α) :
    (quartileStep P d θ i s).upper75 i = (quartileStep P d θ i s).lower25 i := by
  unfold quartileStep
  simp [htail, hasym, setv, qgnorm_upper_eq_lower]

theorem groupStep_range_gnorm (P : Prims α) (d : Data α) (θ : Params α)
    (htail : d.tail_model = 2) (hasym : d.asymmetric = 0) (i : Nat) (s : State α) :
    (groupStep P d θ i s).range = setv s.range i 0 := by
  have hr : ∀ s : State α, (quartileStep P d θ i s).range = s.range := by
    intro s
    unfold quartileStep
    simp only []
    split_ifs <;> rfl
  have h1 : (muStep d θ i (alphaStep P d θ i (devStep d θ i s))).range = s.range := by
    unfold muStep alphaStep devStep
    split_ifs <;> rfl
  unfold groupStep rangeStep
  simp only [quartileStep_gnorm P d θ htail hasym, sub_self, hr, h1]

theorem groupLoop_range_gnorm (P : Prims α) (d : Data α) (θ : Params α)
    (htail : d.tail_model = 2) (hasym : d.asymmetric = 0) (n : Nat) (s : State α) (i : Nat)
    (hi : i < n) : (forLoop n (groupStep P d θ) s).range i = 0 := by
  induction n with
  | zero => omega
  | succ k ih =>
    rw [forLoop_succ, groupStep_range_gnorm P d θ htail hasym]
    unfold setv
    by_cases hik : i = k
    · simp [hik]
    · simp only [hik, if_false]
      exact ih (by omega)

theorem predStep_range (P : Prims α) (d : Data α) (θ : Params α) (i : Nat) (s : State α) :
    (predStep P d θ i s).range = s.range := rfl

theorem dayStep_range (P : Prims α) (d : Data α) (θ : Params α) (i k : Nat) (s : State α) :
    (dayStep P d θ i k s).range = s.range := rfl

theorem yearStep_range (P : Prims α) (d : Data α) (θ : Params α) (i : Nat) (s : State α) :
    (yearStep P d θ i s).range = s.range := by
  unfold yearStep
  simp only []
  rw [forLoop_preserve State.range _ (dayStep_range P d θ i)]

theorem likStep_range (P : Prims α) (d : Data α) (θ : Params α) (s : State α) :
    (likStep P d θ s).range = s.range := by
  have hp : ∀ i (s : State α), (poisStep P d i s).range = s.range := by
    intro i s
    unfold poisStep
    simp only []
    split_ifs <;> rfl
  have hn : ∀ i (s : State α), (nbStep P d θ i s).range = s.range := fun _ _ => rfl
  have hb : ∀ i (s : State α), (binomStep P d i s).range = s.range := fun _ _ => rfl
  unfold likStep
  simp only []
  split_ifs <;>
    simp only [forLoop_preserve State.range _ hp, forLoop_preserve State.range _ hn,
      forLoop_preserve State.range _ hb]

/-- The reported `range` is the one the per-group loop leaves. -/
theorem finalState_range (P : Prims α) (d : Data α) (θ : Params α) :
    (finalState P d θ).range
      = (forLoop d.nLevels (groupStep P d θ)
          (fixedStep d θ (forLoop d.nLevels (reStep P d θ) (priorStep P d θ initState)))).range := by
  unfold finalState preLik
  simp only []
  rw [likStep_range, forLoop_preserve State.range _ (yearStep_range P d θ),
    forLoop_preserve State.range _ (predStep_range P d θ)]

end QuantileLemmas

section StateLemmas

variable {α : Type} [LinearOrderedField α]

/-- The body of the per-group loop at group `i`, field by field: what it
does to `sigma1`, `mu` and `alpha1`. -/
theorem groupStep_fields (P : Prims α) (d : Data α) (θ : Params α) (i : Nat) (s : State α) :
    (groupStep P d θ i s).sigma1
        = (if d.est_sigma_re = 1 then setv s.sigma1 i (s.sigma1 i + θ.sigma1_devs i)
            else s.sigma1)
      ∧ (groupStep P d θ i s).mu
        = (if d.est_mu_re = 1 then setv s.mu i (s.mu i + θ.mu_devs i) else s.mu)
      ∧ (groupStep P d θ i s).alpha1
        = (if d.tail_model = 2 then
            setv s.alpha1 i ((groupStep P d θ i s).sigma1 (yearIdx d i) * beta_ratio P d θ 0)
          else s.alpha1) := by
  have hq : ∀ s : State α, (quartileStep P d θ i s).sigma1 = s.sigma1
      ∧ (quartileStep P d θ i s).mu = s.mu ∧ (quartileStep P d θ i s).alpha1 = s.alpha1 := by
    intro s
    unfold quartileStep
    simp only []
    split_ifs <;> exact ⟨rfl, rfl, rfl⟩
  unfold groupStep rangeStep
  simp only [(hq _).1, (hq _).2.1, (hq _).2.2]
  unfold muStep alphaStep devStep
  refine ⟨?_, ?_, ?_⟩ <;> split_ifs <;> rfl

/-- The per-group loop adds the deviation of every group it has passed to the
fixed-effect scale and location. -/
theorem groupLoop_sigma1_mu (P : Prims α) (d : Data α) (θ : Params α) (k : Nat) (s : State α)
    (j : Nat) :
    (forLoop k (groupStep P d θ) s).sigma1 j
        = s.sigma1 j + (if d.est_sigma_re = 1 ∧ j < k then θ.sigma1_devs j else 0)
      ∧ (forLoop k (groupStep P d θ) s).mu j
        = s.mu j + (if d.est_mu_re = 1 ∧ j < k then θ.mu_devs j else 0) := by
  induction k with
  | zero => simp [forLoop]
  | succ k ih =>
    obtain ⟨ih1, ih2⟩ := ih
    obtain ⟨h1, h2, -⟩ := groupStep_fields P d θ k (forLoop k (groupStep P d θ) s)
    rw [forLoop_succ, h1, h2]
    constructor
    · by_cases hre : d.est_sigma_re = 1
      · simp only [hre, if_true, true_and, setv]
        by_cases hjk : j = k
        · subst hjk
          simp [ih1, hre]
        · have : (j < k + 1) ↔ (j < k) := by omega
          simp only [hjk, if_false, ih1, hre, true_and, this]
      · simp only [hre, if_false, false_and, add_zero, ih1]
    · by_cases hre : d.est_mu_re = 1
      · simp only [hre, if_true, true_and, setv]
        by_cases hjk : j = k
        · subst hjk
          simp [ih2, hre]
        · have : (j < k + 1) ↔ (j < k) := by omega
          simp only [hjk, if_false, ih2, hre, true_and, this]
      · simp only [hre, if_false, false_and, add_zero, ih2]

/-- Under the generalized-normal tail model the per-group loop leaves in
`alpha1(i)` the scale, as assembled when the loop is at `i`, of the group
`years(i)-1` of observation `i`, times `beta_ratio(0)`. -/
theorem groupLoop_alpha1 (P : Prims α) (d : Data α) (θ : Params α) (htail : d.tail_model = 2)
    (k : Nat) (s : State α) (i : Nat) (hi : i < k) :
    (forLoop k (groupStep P d θ) s).alpha1 i
      = (s.sigma1 (yearIdx d i)
          + (if d.est_sigma_re = 1 ∧ yearIdx d i ≤ i then θ.sigma1_devs (yearIdx d i) else 0))
        * beta_ratio P d θ 0 := by
  induction k with
  | zero => omega
  | succ k ih =>
    obtain ⟨-, -, h3⟩ := groupStep_fields P d θ k (forLoop k (groupStep P d θ) s)
    rw [forLoop_succ, h3]
    simp only [htail, if_true, setv]
    by_cases hik : i = k
    · subst hik
      simp only [if_true]
      have hs := (groupLoop_sigma1_mu P d θ (i + 1) s (yearIdx d i)).1
      rw [forLoop_succ] at hs
      have : (yearIdx d i < i + 1) ↔ (yearIdx d i ≤ i) := by omega
      rw [hs]
      simp only [this]
    · simp only [hik, if_false]
      exact ih (by omega)

/-- The prediction loop, the annual loop and the likelihood leave the
per-group vectors as the per-group loop built them. -/
theorem finalState_groupFields (P : Prims α) (d : Data α) (θ : Params α) :
    (finalState P d θ).mu = (afterGroups P d θ).mu
      ∧ (finalState P d θ).sigma1 = (afterGroups P d θ).sigma1
      ∧ (finalState P d θ).sigma2 = (afterGroups P d θ).sigma2
      ∧ (finalState P d θ).alpha1 = (afterGroups P d θ).alpha1
      ∧ (finalState P d θ).alpha2 = (afterGroups P d θ).alpha2 := by
  set f : State α → (Nat → α) × (Nat → α) × (Nat → α) × (Nat → α) × (Nat → α) :=
    fun s => (s.mu, s.sigma1, s.sigma2, s.alpha1, s.alpha2) with hf
  have hpred : ∀ i (s : State α), f (predStep P d θ i s) = f s := fun _ _ => rfl
  have hday : ∀ i k (s : State α), f (dayStep P d θ i k s) = f s := fun _ _ _ => rfl
  have hyear : ∀ i (s : State α), f (yearStep P d θ i s) = f s := by
    intro i s
    unfold yearStep
    simp only []
    rw [forLoop_preserve f _ (hday i)]
  have hp : ∀ i (s : State α), f (poisStep P d i s) = f s := by
    intro i s
    unfold poisStep
    simp only []
    split_ifs <;> rfl
  have hn : ∀ i (s : State α), f (nbStep P d θ i s) = f s := fun _ _ => rfl
  have hb : ∀ i (s : State α), f (binomStep P d i s) = f s := fun _ _ => rfl
  have hlik : ∀ s : State α, f (likStep P d θ s) = f s := by
    intro s
    unfold likStep
    simp only []
    split_ifs <;>
      simp only [forLoop_preserve f _ hp, forLoop_preserve f _ hn, forLoop_preserve f _ hb]
  have key : f (finalState P d θ) = f (afterGroups P d θ) := by
    unfold finalState preLik afterGroups
    simp only []
    rw [hlik, forLoop_preserve f _ hyear, forLoop_preserve f _ hpred]
  simp only [hf, Prod.mk.injEq] at key
  exact key

/-- The tail-model log-density reads the state through the per-group vectors only. -/
theorem tailDens_congr (P : Prims α) (d : Data α) (θ : Params α) (s s' : State α)
    (h1 : s.mu = s'.mu) (h2 : s.sigma1 = s'.sigma1) (h3 : s.sigma2 = s'.sigma2)
    (h4 : s.alpha1 = s'.alpha1) (h5 : s.alpha2 = s'.alpha2) :
    tailDens P d θ s = tailDens P d θ s' := by
  unfold tailDens
  simp only [h1, h2, h3, h4, h5]

/-- The prediction loop: `log_dens(i)` is the tail-model log-density of the
group `years(i)-1` at `x(i)`, `pred(i) = log_dens(i) + theta(years(i)-1)`, and
both stay so to the end of `operator()` apart from the Poisson clamp. -/
theorem predLoop_fields (P : Prims α) (d : Data α) (θ : Params α) (i : Nat) (hi : i < d.n) :
    (preLik P d θ).log_dens i
        = tailDens P d θ (afterGroups P d θ) (d.x i) (yearIdx d i)
            ((afterGroups P d θ).log_dens i)
      ∧ (preLik P d θ).pred i = (preLik P d θ).log_dens i + θ.theta (yearIdx d i)
      ∧ (finalState P d θ).log_dens i = (preLik P d θ).log_dens i := by
  -- the prediction loop
  have hloop : ∀ (n : Nat) (s : State α),
      ((forLoop n (predStep P d θ) s).mu = s.mu
        ∧ (forLoop n (predStep P d θ) s).sigma1 = s.sigma1
        ∧ (forLoop n (predStep P d θ) s).sigma2 = s.sigma2
        ∧ (forLoop n (predStep P d θ) s).alpha1 = s.alpha1
        ∧ (forLoop n (predStep P d θ) s).alpha2 = s.alpha2)
      ∧ (∀ j, n ≤ j → (forLoop n (predStep P d θ) s).log_dens j = s.log_dens j)
      ∧ (∀ j, j < n → (forLoop n (predStep P d θ) s).log_dens j
            = tailDens P d θ s (d.x j) (yearIdx d j) (s.log_dens j)
          ∧ (forLoop n (predStep P d θ) s).pred j
            = (forLoop n (predStep P d θ) s).log_dens j + θ.theta (yearIdx d j)) := by
    intro n s
    induction n with
    | zero =>
      refine ⟨⟨rfl, rfl, rfl, rfl, rfl⟩, fun _ _ => rfl, ?_⟩
      intro j hj
      omega
    | succ k ih =>
      obtain ⟨⟨e1, e2, e3, e4, e5⟩, hge, hlt⟩ := ih
      have hcongr := tailDens_congr P d θ (forLoop k (predStep P d θ) s) s e1 e2 e3 e4 e5
      rw [forLoop_succ]
      refine ⟨⟨e1, e2, e3, e4, e5⟩, ?_, ?_⟩
      · intro j hj
        have hjk : j ≠ k := by omega
        simp only [predStep, setv, hjk, if_false]
        exact hge j (by omega)
      · intro j hj
        by_cases hjk : j = k
        · subst hjk
          simp only [predStep, setv, if_true, hcongr, hge j le_rfl, and_self]
        · simp only [predStep, setv, hjk, if_false]
          exact hlt j (by omega)
  -- the loops after it
  set g : State α → (Nat → α) × (Nat → α) := fun s => (s.log_dens, s.pred) with hg
  have hday : ∀ i k (s : State α), g (dayStep P d θ i k s) = g s := fun _ _ _ => rfl
  have hyear : ∀ i (s : State α), g (yearStep P d θ i s) = g s := by
    intro i s
    unfold yearStep
    simp only []
    rw [forLoop_preserve g _ (hday i)]
  have hpre : g (preLik P d θ) = g (forLoop d.n (predStep P d θ) (afterGroups P d θ)) := by
    unfold preLik afterGroups
    simp only []
    rw [forLoop_preserve g _ hyear]
  simp only [hg, Prod.mk.injEq] at hpre
  obtain ⟨hl, hp⟩ := hpre
  obtain ⟨-, -, hlt⟩ := hloop d.n (afterGroups P d θ)
  obtain ⟨h1, h2⟩ := hlt i hi
  have hlik : (finalState P d θ).log_dens = (preLik P d θ).log_dens := by
    have hp' : ∀ i (s : State α), (poisStep P d i s).log_dens = s.log_dens := by
      intro i s
      unfold poisStep
      simp only []
      split_ifs <;> rfl
    have hn : ∀ i (s : State α), (nbStep P d θ i s).log_dens = s.log_dens := fun _ _ => rfl
    have hb : ∀ i (s : State α), (binomStep P d i s).log_dens = s.log_dens := fun _ _ => rfl
    unfold finalState likStep
    simp only []
    split_ifs <;>
      simp only [forLoop_preserve State.log_dens _ hp', forLoop_preserve State.log_dens _ hn,
        forLoop_preserve State.log_dens _ hb]
  rw [hl, hp, hlik, hl]
  exact ⟨h1, h2, rfl⟩

/-- The reported scale and location of group `g`: the fixed effect plus, when
the random effect is on and `g` is a group, its deviation. -/
theorem finalState_sigma1_mu (P : Prims α) (d : Data α) (θ : Params α) (g : Nat) :
    (finalState P d θ).sigma1 g
        = matVec d.sig_mat d.sig_cols θ.b_sig1 g
          + (if d.est_sigma_re = 1 ∧ g < d.nLevels then θ.sigma1_devs g else 0)
      ∧ (finalState P d θ).mu g
        = matVec d.mu_mat d.mu_cols θ.b_mu g
          + (if d.est_mu_re = 1 ∧ g < d.nLevels then θ.mu_devs g else 0) := by
  obtain ⟨hmu, hs1, -⟩ := finalState_groupFields P d θ
  rw [hmu, hs1]
  unfold afterGroups
  obtain ⟨h1, h2⟩ := groupLoop_sigma1_mu P d θ d.nLevels
    (fixedStep d θ (forLoop d.nLevels (reStep P d θ) (priorStep P d θ initState))) g
  rw [h1, h2]
  have hf : ∀ s : State α, (fixedStep d θ s).sigma1 = matVec d.sig_mat d.sig_cols θ.b_sig1
      ∧ (fixedStep d θ s).mu = matVec d.mu_mat d.mu_cols θ.b_mu := by
    intro s
    unfold fixedStep
    simp only []
    split_ifs <;> exact ⟨rfl, rfl⟩
  rw [(hf _).1, (hf _).2]
  exact ⟨rfl, rfl⟩

end StateLemmas

section RealLemmas

open MeasureTheory ProbabilityTheory

/-- The closed form of the Normal log-density. -/
theorem normalLogPdf_eq (x mu sd : ℝ) (hsd : 0 < sd) :
    normalLogPdf x mu sd
      = -Real.log (Real.sqrt (2 * Real.pi)) - Real.log sd - 0.5 * ((x - mu) / sd) ^ 2 := by
  have hpi : (0 : ℝ) < Real.sqrt (2 * Real.pi) := Real.sqrt_pos.mpr (by positivity)
  have hsq : Real.sqrt (2 * Real.pi * sd ^ 2) = Real.sqrt (2 * Real.pi) * sd := by
    rw [Real.sqrt_mul (by positivity), Real.sqrt_sq hsd.le]
  unfold normalLogPdf gaussianPDFReal
  simp only [NNReal.coe_mk]
  rw [hsq, Real.log_mul (by positivity) (Real.exp_pos _).ne', Real.log_exp, Real.log_inv,
    Real.log_mul hpi.ne' hsd.ne']
  field_simp
  ring

/-- The standard normal distribution function: its increment over an interval
is the integral of the density, it is strictly increasing, and it is `1/2` at 0. -/
theorem stdNormalCDF_facts :
    (∀ a b : ℝ, stdNormalCDF b - stdNormalCDF a = ∫ t in a..b, gaussianPDFReal 0 1 t)
      ∧ StrictMono stdNormalCDF ∧ stdNormalCDF 0 = 1 / 2 := by
  have hf := integrable_gaussianPDFReal 0 1
  have heq : ∀ x : ℝ, stdNormalCDF x = ∫ t in Set.Iic x, gaussianPDFReal 0 1 t := by
    intro x
    unfold stdNormalCDF
    rw [gaussianReal_apply_eq_integral 0 one_ne_zero, ENNReal.toReal_ofReal]
    exact setIntegral_nonneg measurableSet_Iic (fun t _ => gaussianPDFReal_nonneg 0 1 t)
  have hsub : ∀ a b : ℝ,
      stdNormalCDF b - stdNormalCDF a = ∫ t in a..b, gaussianPDFReal 0 1 t := by
    intro a b
    rw [heq, heq]
    exact intervalIntegral.integral_Iic_sub_Iic hf.integrableOn hf.integrableOn
  refine ⟨hsub, ?_, ?_⟩
  · intro a b hab
    have hpos : 0 < ∫ t in a..b, gaussianPDFReal 0 1 t := by
      apply intervalIntegral.intervalIntegral_pos_of_pos_on hf.intervalIntegrable _ hab
      intro t _
      exact gaussianPDFReal_pos 0 1 t one_ne_zero
    have h := hsub a b
    linarith
  · have h1 : ∫ t in Set.Iic (0:ℝ), gaussianPDFReal 0 1 t
        = ∫ t in Set.Ioi (0:ℝ), gaussianPDFReal 0 1 t := by
      have := integral_comp_neg_Ioi (0:ℝ) (fun t => gaussianPDFReal 0 1 t)
      simp only [neg_zero] at this
      rw [← this]
      congr 1
      ext t
      simp [gaussianPDFReal]
    have h2 := integral_add_compl (measurableSet_Iic (a := (0:ℝ))) hf
    rw [Set.compl_Iic, integral_gaussianPDFReal_eq_one 0 one_ne_zero, ← h1] at h2
    rw [heq]
    linarith

/-- The true normal quantile: it lies between any two points whose
distribution function values bracket `p`, it is 0 at `p = 0.5`, and it is not
negative above the median. -/
theorem stdNormalQuantile_facts :
    (∀ p lo hi : ℝ, stdNormalCDF lo < p → p ≤ stdNormalCDF hi →
        lo ≤ stdNormalQuantile p ∧ stdNormalQuantile p ≤ hi)
      ∧ stdNormalQuantile 0.5 = 0 ∧ (∀ p : ℝ, 0.5 < p → 0 ≤ stdNormalQuantile p) := by
  obtain ⟨-, hstrict, hzero⟩ := stdNormalCDF_facts
  have hmono : Monotone stdNormalCDF := hstrict.monotone
  refine ⟨?_, ?_, ?_⟩
  · intro p lo hi hlo hhi
    have hlb : ∀ x ∈ {x : ℝ | p ≤ stdNormalCDF x}, lo ≤ x := by
      intro x hx
      by_contra hcon
      have := hmono (not_le.mp hcon).le
      simp only [Set.mem_setOf_eq] at hx
      linarith
    exact ⟨le_csInf ⟨hi, hhi⟩ hlb, csInf_le ⟨lo, hlb⟩ hhi⟩
  · have hset : {x : ℝ | (0.5:ℝ) ≤ stdNormalCDF x} = Set.Ici 0 := by
      ext x
      simp only [Set.mem_setOf_eq, Set.mem_Ici]
      constructor
      · intro h
        by_contra hcon
        have := hstrict (not_le.mp hcon)
        rw [hzero] at this
        norm_num at h
        linarith
      · intro h
        have := hmono h
        rw [hzero] at this
        norm_num
        linarith
    unfold stdNormalQuantile
    rw [hset, csInf_Ici]
  · intro p hp
    apply Real.sInf_nonneg
    intro x hx
    by_contra hcon
    have := hmono (not_le.mp hcon).le
    rw [hzero] at this
    simp only [Set.mem_setOf_eq] at hx
    norm_num at hp
    linarith

/-- Bounds on the coefficients of Hill's algorithm for `v ≥ 2`: with
`a = 1/(v - 0.5)`, `b = 48/a²`, `c` and `d` as in lines 20-23, one has
`0 < a ≤ 2/3`, `108 ≤ b`, `42 ≤ c` and `1 ≤ d`. -/
theorem hill_coeff_bounds (v : ℝ) (hv : 2 ≤ v) :
    0 < 1 / (v - 0.5) ∧ 1 / (v - 0.5) ≤ 2 / 3
      ∧ 108 ≤ 48 / (1 / (v - 0.5) * (1 / (v - 0.5)))
      ∧ 42 ≤ ((20700 * (1 / (v - 0.5)) / (48 / (1 / (v - 0.5) * (1 / (v - 0.5)))) - 98)
              * (1 / (v - 0.5)) - 16) * (1 / (v - 0.5)) + 96.36
      ∧ 1 ≤ ((94.5 / (48 / (1 / (v - 0.5) * (1 / (v - 0.5)))
              + (((20700 * (1 / (v - 0.5)) / (48 / (1 / (v - 0.5) * (1 / (v - 0.5)))) - 98)
                  * (1 / (v - 0.5)) - 16) * (1 / (v - 0.5)) + 96.36)) - 3)
              / (48 / (1 / (v - 0.5) * (1 / (v - 0.5)))) + 1)
            * Real.sqrt (1 / (v - 0.5) * 3.14159265 / 2) * v := by
  have hw : (0 : ℝ) < v - 0.5 := by norm_num; linarith
  generalize ha : 1 / (v - 0.5) = a
  have ha0 : 0 < a := by rw [← ha]; positivity
  have ha1 : a ≤ 2 / 3 := by
    rw [← ha, div_le_div_iff₀ hw (by norm_num)]
    norm_num
    linarith
  have hav : a * (v - 0.5) = 1 := by rw [← ha]; field_simp
  generalize hb : 48 / (a * a) = b
  have hb1 : 108 ≤ b := by
    rw [← hb, le_div_iff₀ (by positivity)]
    nlinarith
  have hb0 : 0 < b := by linarith
  have hab : 0 ≤ 20700 * a / b := by positivity
  generalize hc : ((20700 * a / b - 98) * a - 16) * a + 96.36 = c
  have hc1 : 42 ≤ c := by
    rw [← hc]
    norm_num
    nlinarith [mul_nonneg hab (mul_nonneg ha0.le ha0.le)]
  refine ⟨ha0, ha1, hb1, hc1, ?_⟩
  have hF : 0.97 ≤ (94.5 / (b + c) - 3) / b + 1 := by
    have h1 : 0 ≤ 94.5 / (b + c) := by positivity
    have h2 : -3 / b ≤ (94.5 / (b + c) - 3) / b := by
      apply div_le_div_of_nonneg_right _ hb0.le
      linarith
    have h3 : -(3 / 108) ≤ -3 / b := by
      rw [neg_div, neg_le_neg_iff]
      exact div_le_div_of_nonneg_left (by norm_num) (by norm_num) hb1
    norm_num at h3 ⊢
    linarith
  have hS : 1.77 ≤ Real.sqrt (a * 3.14159265 / 2) * v := by
    have hv0 : 0 ≤ v := by linarith
    have : Real.sqrt (a * 3.14159265 / 2) * v = Real.sqrt (a * 3.14159265 / 2 * v ^ 2) := by
      rw [Real.sqrt_mul (by positivity), Real.sqrt_sq hv0]
    rw [this]
    apply Real.le_sqrt_of_sq_le
    have h5 : 2 ≤ a * v ^ 2 := by nlinarith
    norm_num
    nlinarith
  calc (1 : ℝ) ≤ 0.97 * 1.77 := by norm_num
    _ ≤ ((94.5 / (b + c) - 3) / b + 1) * (Real.sqrt (a * 3.14159265 / 2) * v) := by
        apply mul_le_mul hF hS (by norm_num) (by linarith)
    _ = _ := by ring

/-- Shifted Gaussians: integrability, and the two half-line integrals about
the centre. -/
theorem gauss_shift_integrals (mu b : ℝ) :
    (0 < b → Integrable (fun x : ℝ => Real.exp (-b * (x - mu) ^ 2)))
      ∧ ∫ x in Set.Ioi mu, Real.exp (-b * (x - mu) ^ 2) = Real.sqrt (Real.pi / b) / 2
      ∧ ∫ x in Set.Iio mu, Real.exp (-b * (x - mu) ^ 2) = Real.sqrt (Real.pi / b) / 2 := by
  have hIoi : ∀ m : ℝ,
      ∫ x in Set.Ioi m, Real.exp (-b * (x - m) ^ 2) = Real.sqrt (Real.pi / b) / 2 := by
    intro m
    rw [← integral_gaussian_Ioi b, ← integral_indicator measurableSet_Ioi,
      ← integral_indicator measurableSet_Ioi,
      ← integral_sub_right_eq_self
        (fun u => (Set.Ioi (0 : ℝ)).indicator (fun x => Real.exp (-b * x ^ 2)) u) m]
    congr 1
    ext x
    simp only [Set.indicator, Set.mem_Ioi, sub_pos]
  refine ⟨fun hb => (integrable_exp_neg_mul_sq hb).comp_sub_right mu, hIoi mu, ?_⟩
  rw [← integral_Iic_eq_integral_Iio, ← hIoi (-mu)]
  have := integral_comp_neg_Ioi (-mu) (fun x => Real.exp (-b * (x - mu) ^ 2))
  simp only [neg_neg] at this
  rw [← this]
  congr 1
  ext x
  congr 2
  ring

/-- The double normal density on either side of `mu`: a Gaussian in the
scale `s` of the side `x` lies on, times `2/((s1 + s2)√(2π))`. -/
theorem exp_ddnorm_eq (x mu s1 s2 : ℝ) (h1 : 0 < s1) (h2 : 0 < s2) :
    (x < mu → Real.exp (ddnorm Rprims x mu s1 s2)
        = 2 / ((s1 + s2) * Real.sqrt (2 * Real.pi))
          * Real.exp (-(1 / (2 * s1 ^ 2)) * (x - mu) ^ 2))
      ∧ (¬ x < mu → Real.exp (ddnorm Rprims x mu s1 s2)
        = 2 / ((s1 + s2) * Real.sqrt (2 * Real.pi))
          * Real.exp (-(1 / (2 * s2 ^ 2)) * (x - mu) ^ 2)) := by
  have hpi : (0 : ℝ) < Real.sqrt (2 * Real.pi) := Real.sqrt_pos.mpr (by positivity)
  have key : ∀ s : ℝ, 0 < s →
      Real.exp (Real.log 2 - Real.log (s1 + s2)
        + (-Real.log (Real.sqrt (2 * Real.pi)) - Real.log 1
            - 0.5 * (((x - mu) / s - 0) / 1) ^ 2))
      = 2 / ((s1 + s2) * Real.sqrt (2 * Real.pi))
          * Real.exp (-(1 / (2 * s ^ 2)) * (x - mu) ^ 2) := by
    intro s hs
    rw [Real.log_one, ← Real.log_div (by norm_num) (by positivity), sub_zero, sub_zero, div_one,
      ← Real.log_inv, sub_eq_add_neg, ← add_assoc,
      ← Real.log_mul (by positivity) (by positivity), Real.exp_add,
      Real.exp_log (by positivity)]
    congr 1
    · field_simp
    · congr 1
      field_simp
      ring
  constructor
  · intro hx
    simp only [ddnorm, hx, if_true]
    exact key s1 h1
  · intro hx
    simp only [ddnorm, hx, if_false]
    exact key s2 h2

/-- The mass of one side of the double normal. -/
theorem half_gauss_mass (s t : ℝ) (hs : 0 < s) (ht : 0 < t) :
    2 / ((s + t) * Real.sqrt (2 * Real.pi)) * (Real.sqrt (Real.pi / (1 / (2 * s ^ 2))) / 2)
      = s / (s + t) := by
  have hpi : (0 : ℝ) < Real.sqrt (2 * Real.pi) := Real.sqrt_pos.mpr (by positivity)
  have : Real.pi / (1 / (2 * s ^ 2)) = 2 * Real.pi * s ^ 2 := by field_simp; ring
  have h3 : Real.sqrt (2 * Real.pi * s ^ 2) = Real.sqrt (2 * Real.pi) * s := by
    rw [Real.sqrt_mul (by positivity), Real.sqrt_sq hs.le]
  rw [this, h3]
  field_simp
  ring

/-- The derivative of a Taylor polynomial of `exp (-u)` is minus the previous one. -/
theorem hasDerivAt_expNegPoly (n : ℕ) (u : ℝ) :
    HasDerivAt (expNegPoly (n + 1)) (-expNegPoly n u) u := by
  have hsucc : ∀ (k : ℕ) (t : ℝ),
      expNegPoly (k + 1) t = expNegPoly k t + (-t) ^ (k + 1) / ((k + 1).factorial : ℝ) := by
    intro k t
    unfold expNegPoly
    rw [Finset.sum_range_succ]
  induction n with
  | zero =>
    have h : expNegPoly (0 + 1) = fun u : ℝ => 1 + -u := by
      ext u
      simp [expNegPoly, Finset.sum_range_succ]
    rw [h]
    have : -expNegPoly 0 u = 0 + -1 := by simp [expNegPoly]
    rw [this]
    exact (hasDerivAt_const u (1:ℝ)).add (hasDerivAt_id u).neg
  | succ k ih =>
    have h : expNegPoly (k + 1 + 1)
        = fun u : ℝ => expNegPoly (k + 1) u + (-u) ^ (k + 2) / ((k + 2).factorial : ℝ) := by
      ext u
      rw [hsucc]
    rw [h]
    have hpow : HasDerivAt (fun u : ℝ => (-u) ^ (k + 2) / ((k + 2).factorial : ℝ))
        (-((-u) ^ (k + 1) / ((k + 1).factorial : ℝ))) u := by
      have h1 : HasDerivAt (fun u : ℝ => (-u) ^ (k + 2))
          (((k + 2 : ℕ) : ℝ) * (-u) ^ (k + 1) * (-1)) u :=
        ((hasDerivAt_id u).neg.pow (k + 2))
      have h2 := h1.div_const ((k + 2).factorial : ℝ)
      convert h2 using 1
      rw [Nat.factorial_succ (k + 1)]
      push_cast
      field_simp
      ring
    have := ih.add hpow
    convert this using 1
    rw [hsucc k u]
    ring

/-- The Taylor polynomials of `exp (-u)` bound it on `u ≥ 0`: from above in
even degree, from below in odd degree. -/
theorem expNegPoly_bounds (m : ℕ) (u : ℝ) (hu : 0 ≤ u) :
    Real.exp (-u) ≤ expNegPoly (2 * m) u ∧ expNegPoly (2 * m + 1) u ≤ Real.exp (-u) := by
  have hzero : ∀ n : ℕ, expNegPoly n 0 = 1 := by
    intro n
    unfold expNegPoly
    rw [Finset.sum_range_succ']
    simp
  have halt : ∀ n : ℕ, ∀ t : ℝ, 0 ≤ t →
      0 ≤ (-1) ^ n * (expNegPoly n t - Real.exp (-t)) := by
    intro n
    induction n with
    | zero =>
      intro t ht
      have : Real.exp (-t) ≤ 1 := Real.exp_le_one_iff.mpr (by linarith)
      simp [expNegPoly]
      linarith
    | succ k ih =>
      intro t ht
      set g : ℝ → ℝ := fun t => (-1) ^ (k + 1) * (expNegPoly (k + 1) t - Real.exp (-t)) with hg
      have hderiv : ∀ t : ℝ, HasDerivAt g ((-1) ^ k * (expNegPoly k t - Real.exp (-t))) t := by
        intro t
        have h1 := hasDerivAt_expNegPoly k t
        have h2 : HasDerivAt (fun t : ℝ => Real.exp (-t)) (Real.exp (-t) * (-1)) t :=
          ((hasDerivAt_id t).neg).exp
        have h3 := (h1.sub h2).const_mul ((-1 : ℝ) ^ (k + 1))
        convert h3 using 1
        rw [pow_succ]
        ring
      have hmono : MonotoneOn g (Set.Ici 0) := by
        apply monotoneOn_of_deriv_nonneg (convex_Ici 0)
        · exact fun t _ => (hderiv t).continuousAt.continuousWithinAt
        · exact fun t _ => (hderiv t).differentiableAt.differentiableWithinAt
        · intro t ht
          rw [interior_Ici] at ht
          rw [(hderiv t).deriv]
          exact ih t (le_of_lt ht)
      have h0 : g 0 = 0 := by
        simp [hg, hzero]
      have := hmono (Set.mem_Ici.mpr le_rfl) (Set.mem_Ici.mpr ht) ht
      rw [h0] at this
      exact this
  constructor
  · have := halt (2 * m) u hu
    rw [pow_mul] at this
    norm_num at this
    linarith
  · have := halt (2 * m + 1) u hu
    rw [pow_succ, pow_mul] at this
    norm_num at this
    linarith

/-- Polynomial bounds of the standard normal distribution function left of 0,
from the Taylor polynomials of `exp (-t²/2)` integrated over `[-x, 0]`. -/
theorem stdNormalCDF_neg_bounds (m : ℕ) (x : ℝ) (hx : 0 ≤ x) :
    1 / 2 - (Real.sqrt (2 * Real.pi))⁻¹ * gaussPolyInt (2 * m) x ≤ stdNormalCDF (-x)
      ∧ stdNormalCDF (-x) ≤ 1 / 2 - (Real.sqrt (2 * Real.pi))⁻¹ * gaussPolyInt (2 * m + 1) x
      ∧ 0 ≤ gaussPolyInt (2 * m) x := by
  have hcont : ∀ n : ℕ, Continuous (fun t : ℝ => expNegPoly n (t ^ 2 / 2)) := by
    intro n
    unfold expNegPoly
    fun_prop
  have hcexp : Continuous fun t : ℝ => Real.exp (-(t ^ 2 / 2)) := by fun_prop
  have hint : ∀ n : ℕ, ∫ t in (-x)..0, expNegPoly n (t ^ 2 / 2) = gaussPolyInt n x := by
    intro n
    unfold expNegPoly gaussPolyInt
    rw [intervalIntegral.integral_finset_sum]
    · apply Finset.sum_congr rfl
      intro k _
      have h : ∀ t : ℝ, (-(t ^ 2 / 2)) ^ k / (k.factorial : ℝ)
          = (-1 / 2 : ℝ) ^ k / (k.factorial : ℝ) * t ^ (2 * k) := by
        intro t
        have : -(t ^ 2 / 2) = (-1 / 2) * t ^ 2 := by ring
        rw [this, mul_pow, pow_mul t 2 k]
        ring
      simp only [h]
      rw [intervalIntegral.integral_const_mul, integral_pow]
      congr 1
      have hodd : Odd (2 * k + 1) := ⟨k, rfl⟩
      rw [hodd.neg_pow, zero_pow (by omega)]
      push_cast
      ring
    · intro k _
      apply Continuous.intervalIntegrable
      fun_prop
  have hcdf : stdNormalCDF (-x)
      = 1 / 2 - (Real.sqrt (2 * Real.pi))⁻¹ * ∫ t in (-x)..0, Real.exp (-(t ^ 2 / 2)) := by
    obtain ⟨hsub, -, hzero⟩ := stdNormalCDF_facts
    have h := hsub (-x) 0
    rw [hzero] at h
    have h2 : ∫ t in (-x)..0, gaussianPDFReal 0 1 t
        = (Real.sqrt (2 * Real.pi))⁻¹ * ∫ t in (-x)..0, Real.exp (-(t ^ 2 / 2)) := by
      rw [← intervalIntegral.integral_const_mul]
      congr 1
      ext t
      simp [gaussianPDFReal, neg_div]
    rw [h2] at h
    linarith
  have hc : 0 ≤ (Real.sqrt (2 * Real.pi))⁻¹ := by positivity
  have hup : ∫ t in (-x)..0, Real.exp (-(t ^ 2 / 2)) ≤ gaussPolyInt (2 * m) x := by
    rw [← hint]
    apply intervalIntegral.integral_mono_on (by linarith) (hcexp.intervalIntegrable _ _)
      ((hcont _).intervalIntegrable _ _)
    intro t _
    exact (expNegPoly_bounds m _ (by positivity)).1
  have hlow : gaussPolyInt (2 * m + 1) x ≤ ∫ t in (-x)..0, Real.exp (-(t ^ 2 / 2)) := by
    rw [← hint]
    apply intervalIntegral.integral_mono_on (by linarith) ((hcont _).intervalIntegrable _ _)
      (hcexp.intervalIntegrable _ _)
    intro t _
    exact (expNegPoly_bounds m _ (by positivity)).2
  have hnn : 0 ≤ ∫ t in (-x)..0, Real.exp (-(t ^ 2 / 2)) :=
    intervalIntegral.integral_nonneg (by linarith) (fun t _ => (Real.exp_pos _).le)
  have h1 := mul_le_mul_of_nonneg_left hup hc
  have h2 := mul_le_mul_of_nonneg_left hlow hc
  rw [hcdf]
  refine ⟨by linarith, by linarith, le_trans hnn hup⟩

set_option maxRecDepth 100000 in
/-- The values of the integrated Taylor polynomials of degree 11 at 1.9601 and
of degree 12 at 1.9598. -/
theorem gaussPolyInt_values :
    (1.19064852 : ℝ) < gaussPolyInt 11 1.9601 ∧ gaussPolyInt 12 1.9598 < (1.1906483 : ℝ) := by
  unfold gaussPolyInt
  simp only [Finset.sum_range_succ, Finset.sum_range_zero, Nat.factorial]
  constructor <;> norm_num

/-- The true normal quantile at 0.025 lies in `[-1.9601, -1.9598]`. -/
theorem stdNormalQuantile_025 :
    -1.9601 ≤ stdNormalQuantile 0.025 ∧ stdNormalQuantile 0.025 ≤ -1.9598 := by
  have hc1 : 2.506628 < Real.sqrt (2 * Real.pi) := by
    apply Real.lt_sqrt_of_sq_lt
    have := Real.pi_gt_d6
    norm_num at this ⊢
    linarith
  have hc2 : Real.sqrt (2 * Real.pi) < 2.50662845 := by
    rw [Real.sqrt_lt' (by norm_num)]
    have := Real.pi_lt_d6
    norm_num at this ⊢
    linarith
  have hcpos : (0 : ℝ) < Real.sqrt (2 * Real.pi) := by linarith
  obtain ⟨hL, hU⟩ := gaussPolyInt_values
  apply stdNormalQuantile_facts.1
  · have h : stdNormalCDF (-1.9601)
        ≤ 1 / 2 - (Real.sqrt (2 * Real.pi))⁻¹ * gaussPolyInt 11 1.9601 :=
      (stdNormalCDF_neg_bounds 5 1.9601 (by norm_num)).2.1
    have h3 : 0.475 < (Real.sqrt (2 * Real.pi))⁻¹ * gaussPolyInt 11 1.9601 := by
      rw [inv_mul_eq_div, lt_div_iff₀ hcpos]
      nlinarith
    linarith
  · obtain ⟨h, -, hG⟩ := stdNormalCDF_neg_bounds 6 1.9598 (by norm_num)
    have h' : 1 / 2 - (Real.sqrt (2 * Real.pi))⁻¹ * gaussPolyInt 12 1.9598
        ≤ stdNormalCDF (-1.9598) := h
    have hG' : 0 ≤ gaussPolyInt 12 1.9598 := hG
    have h3 : (Real.sqrt (2 * Real.pi))⁻¹ * gaussPolyInt 12 1.9598 < 0.475 := by
      rw [inv_mul_eq_div, div_lt_iff₀ hcpos]
      nlinarith
    linarith

/-- Interval evaluation of lines 28-35 of `qthill` at `v = 10` (`a = 2/19`,
`b = 4332`): for `c`, `d` and the normal quantile `x` in the given intervals,
the value `a*y*y` of line 35 lies in `[0.40303, 0.40316]`.  Every
intermediate value of the code is a variable with its defining equation. -/
theorem hill_core_bounds (c d x y u1 t1 u2 t2 u3 t3 u4 t4 cc v1 p1 v2 p2 p3 q r y1 w y2 : ℝ)
    (h_c : 93.5954 ≤ c ∧ c ≤ 93.5955) (h_d : 4.063492 ≤ d ∧ d ≤ 4.0634921)
    (h_x : -1.9601 ≤ x ∧ x ≤ -1.9598)
    (e_y : y = x * x)
    (e_u1 : u1 = 0.05 * d)
    (e_t1 : t1 = u1 * x)
    (e_u2 : u2 = t1 - 5)
    (e_t2 : t2 = u2 * x)
    (e_u3 : u3 = t2 - 7)
    (e_t3 : t3 = u3 * x)
    (e_u4 : u4 = t3 - 2)
    (e_t4 : t4 = u4 * x)
    (e_cc : cc = c + t4 + 4332)
    (e_v1 : v1 = 0.4 * y + 6.3)
    (e_p1 : p1 = v1 * y)
    (e_v2 : v2 = p1 + 36)
    (e_p2 : p2 = v2 * y)
    (e_p3 : p3 = p2 + 94.5)
    (e_q : q = p3 / cc)
    (e_r : r = (q - y - 3) / 4332 + 1)
    (e_y1 : y1 = r * x)
    (e_w : w = y1 * y1)
    (e_y2 : y2 = 2 / 19 * y1 * y1) :
    0.40303 ≤ y2 ∧ y2 ≤ 0.40316 := by
  have h_y : 3.84081604 ≤ y ∧ y ≤ 3.84199201 := by
    rw [e_y]
    constructor <;>
    linarith only [h_x.1, h_x.2, h_x.1, h_x.2,
      mul_nonneg (sub_nonneg.2 h_x.1) (sub_nonneg.2 h_x.1),
      mul_nonneg (sub_nonneg.2 h_x.2) (sub_nonneg.2 h_x.2),
      mul_nonneg (sub_nonneg.2 h_x.1) (sub_nonneg.2 h_x.2),
      mul_nonneg (sub_nonneg.2 h_x.2) (sub_nonneg.2 h_x.1)]
  have h_u1 : 0.2031746 ≤ u1 ∧ u1 ≤ 0.203174605 := by
    rw [e_u1]
    constructor <;> linarith only [h_d.1, h_d.2]
  have h_t1 : (-0.3982425433) ≤ t1 ∧ t1 ≤ (-0.398181581) := by
    rw [e_t1]
    constructor <;>
    linarith only [h_u1.1, h_u1.2, h_x.1, h_x.2,
      mul_nonneg (sub_nonneg.2 h_u1.1) (sub_nonneg.2 h_x.1),
      mul_nonneg (sub_nonneg.2 h_u1.2) (sub_nonneg.2 h_x.2),
      mul_nonneg (sub_nonneg.2 h_u1.1) (sub_nonneg.2 h_x.2),
      mul_nonneg (sub_nonneg.2 h_u1.2) (sub_nonneg.2 h_x.1)]
  have h_u2 : (-5.3982425433) ≤ u2 ∧ u2 ≤ (-5.398181581) := by
    rw [e_u2]
    constructor <;> linarith only [h_t1.1, h_t1.2]
  have h_t2 : 10.5793562624 ≤ t2 ∧ t2 ≤ 10.5810952092 := by
    rw [e_t2]
    constructor <;>
    linarith only [h_u2.1, h_u2.2, h_x.1, h_x.2,
      mul_nonneg (sub_nonneg.2 h_u2.1) (sub_nonneg.2 h_x.1),
      mul_nonneg (sub_nonneg.2 h_u2.2) (sub_nonneg.2 h_x.2),
      mul_nonneg (sub_nonneg.2 h_u2.1) (sub_nonneg.2 h_x.2),
      mul_nonneg (sub_nonneg.2 h_u2.2) (sub_nonneg.2 h_x.1)]
  have h_u3 : 3.5793562624 ≤ u3 ∧ u3 ≤ 3.5810952092 := by
    rw [e_u3]
    constructor <;> linarith only [h_t2.1, h_t2.2]
  have h_t3 : (-7.0193047196) ≤ t3 ∧ t3 ≤ (-7.014822403) := by
    rw [e_t3]
    constructor <;>
    linarith only [h_u3.1, h_u3.2, h_x.1, h_x.2,
      mul_nonneg (sub_nonneg.2 h_u3.1) (sub_nonneg.2 h_x.1),
      mul_nonneg (sub_nonneg.2 h_u3.2) (sub_nonneg.2 h_x.2),
      mul_nonneg (sub_nonneg.2 h_u3.1) (sub_nonneg.2 h_x.2),
      mul_nonneg (sub_nonneg.2 h_u3.2) (sub_nonneg.2 h_x.1)]
  have h_u4 : (-9.0193047196) ≤ u4 ∧ u4 ≤ (-9.014822403) := by
    rw [e_u4]
    constructor <;> linarith only [h_t3.1, h_t3.2]
  have h_t4 : 17.6672489453 ≤ t4 ∧ t4 ≤ 17.6787391809 := by
    rw [e_t4]
    constructor <;>
    linarith only [h_u4.1, h_u4.2, h_x.1, h_x.2,
      mul_nonneg (sub_nonneg.2 h_u4.1) (sub_nonneg.2 h_x.1),
      mul_nonneg (sub_nonneg.2 h_u4.2) (sub_nonneg.2 h_x.2),
      mul_nonneg (sub_nonneg.2 h_u4.1) (sub_nonneg.2 h_x.2),
      mul_nonneg (sub_nonneg.2 h_u4.2) (sub_nonneg.2 h_x.1)]
  have h_cc : 4443.2626489453 ≤ cc ∧ cc ≤ 4443.2742391809 := by
    rw [e_cc]
    constructor <;> linarith only [h_c.1, h_c.2, h_t4.1, h_t4.2]
  have h_v1 : 7.836326416 ≤ v1 ∧ v1 ≤ 7.836796804 := by
    rw [e_v1]
    constructor <;> linarith only [h_y.1, h_y.2]
  have h_p1 : 30.0978881932 ≤ p1 ∧ p1 ≤ 30.108910705 := by
    rw [e_p1]
    constructor <;>
    linarith only [h_v1.1, h_v1.2, h_y.1, h_y.2,
      mul_nonneg (sub_nonneg.2 h_v1.1) (sub_nonneg.2 h_y.1),
      mul_nonneg (sub_nonneg.2 h_v1.2) (sub_nonneg.2 h_y.2),
      mul_nonneg (sub_nonneg.2 h_v1.1) (sub_nonneg.2 h_y.2),
      mul_nonneg (sub_nonneg.2 h_v1.2) (sub_nonneg.2 h_y.1)]
  have h_v2 : 66.0978881932 ≤ v2 ∧ v2 ≤ 66.108910705 := by
    rw [e_v2]
    constructor <;> linarith only [h_p1.1, h_p1.2]
  have h_p2 : 253.8698291825 ≤ p2 ∧ p2 ≤ 253.9899067185 := by
    rw [e_p2]
    constructor <;>
    linarith only [h_v2.1, h_v2.2, h_y.1, h_y.2,
      mul_nonneg (sub_nonneg.2 h_v2.1) (sub_nonneg.2 h_y.1),
      mul_nonneg (sub_nonneg.2 h_v2.2) (sub_nonneg.2 h_y.2),
      mul_nonneg (sub_nonneg.2 h_v2.1) (sub_nonneg.2 h_y.2),
      mul_nonneg (sub_nonneg.2 h_v2.2) (sub_nonneg.2 h_y.1)]
  have h_p3 : 348.3698291825 ≤ p3 ∧ p3 ≤ 348.4899067185 := by
    rw [e_p3]
    constructor <;> linarith only [h_p2.1, h_p2.2]
  have hccpos : 0 < cc := by linarith only [h_cc.1]
  have h_q : 0.078403855001 ≤ q ∧ q ≤ 0.07843108415 := by
    rw [e_q]
    constructor
    · rw [le_div_iff₀ hccpos]
      linarith only [h_cc.1, h_cc.2, h_p3.1, h_p3.2]
    · rw [div_le_iff₀ hccpos]
      linarith only [h_cc.1, h_cc.2, h_p3.1, h_p3.2]
  have h_r : 0.998438691561 ≤ r ∧ r ≤ 0.998438969309 := by
    rw [e_r]
    constructor <;> linarith only [h_q.1, h_q.2, h_y.1, h_y.2]
  have h_y1 : (-1.957040223743) ≤ y1 ∧ y1 ≤ (-1.956740147721) := by
    rw [e_y1]
    constructor <;>
    linarith only [h_r.1, h_r.2, h_x.1, h_x.2,
      mul_nonneg (sub_nonneg.2 h_r.1) (sub_nonneg.2 h_x.1),
      mul_nonneg (sub_nonneg.2 h_r.2) (sub_nonneg.2 h_x.2),
      mul_nonneg (sub_nonneg.2 h_r.1) (sub_nonneg.2 h_x.2),
      mul_nonneg (sub_nonneg.2 h_r.2) (sub_nonneg.2 h_x.1)]
  have h_w : 3.828832005703 ≤ w ∧ w ≤ 3.830006437349 := by
    rw [e_w]
    constructor <;>
    linarith only [h_y1.1, h_y1.2, h_y1.1, h_y1.2,
      mul_nonneg (sub_nonneg.2 h_y1.1) (sub_nonneg.2 h_y1.1),
      mul_nonneg (sub_nonneg.2 h_y1.2) (sub_nonneg.2 h_y1.2),
      mul_nonneg (sub_nonneg.2 h_y1.1) (sub_nonneg.2 h_y1.2),
      mul_nonneg (sub_nonneg.2 h_y1.2) (sub_nonneg.2 h_y1.1)]
  have h_y2 : 0.403034947968 ≤ y2 ∧ y2 ≤ 0.403158572353 := by
    rw [e_y2, mul_assoc, ← e_w]
    constructor <;> linarith only [h_w.1, h_w.2]
  constructor <;> linarith only [h_y2.1, h_y2.2]

/-- Hill's coefficients at `v = 10`: bounds on `c` (line 22) and `d` (line 23). -/
theorem hill_cd_ten :
    (93.5954 ≤ ((20700 * (2 / 19) / 4332 - 98) * (2 / 19) - 16) * (2 / 19) + (96.36 : ℝ)
      ∧ ((20700 * (2 / 19) / 4332 - 98) * (2 / 19) - 16) * (2 / 19) + (96.36 : ℝ) ≤ 93.5955)
    ∧ (4.063492 ≤ ((94.5 / (4332 + (((20700 * (2 / 19) / 4332 - 98) * (2 / 19) - 16) * (2 / 19)
            + 96.36)) - 3) / 4332 + 1) * Real.sqrt (2 / 19 * 3.14159265 / 2) * 10
      ∧ ((94.5 / (4332 + (((20700 * (2 / 19) / 4332 - 98) * (2 / 19) - 16) * (2 / 19)
            + 96.36)) - 3) / 4332 + 1) * Real.sqrt (2 / 19 * 3.14159265 / 2) * 10
          ≤ 4.0634921) := by
  have hs1 : 0.406628800724 ≤ Real.sqrt (2 / 19 * 3.14159265 / 2) := by
    apply Real.le_sqrt_of_sq_le
    norm_num
  have hs2 : Real.sqrt (2 / 19 * 3.14159265 / 2) ≤ 0.406628800725 := by
    rw [Real.sqrt_le_iff]
    norm_num
  refine ⟨⟨by norm_num, by norm_num⟩, ?_⟩
  have hF : ((94.5 / (4332 + (((20700 * (2 / 19) / 4332 - 98) * (2 / 19) - 16) * (2 / 19)
            + 96.36)) - 3) / 4332 + 1 : ℝ) = 790638936611151 / 791182947383608 := by
    norm_num
  rw [hF]
  constructor <;> linarith

/-- The last steps of Hill's algorithm at `v = 10` (lines 36-49):
`sqrt(v*(exp(y) - 1))` for `y` in `[0.40303, 0.40316]`. -/
theorem hill_finish (Y : ℝ) (h : 0.40303 ≤ Y ∧ Y ≤ 0.40316) :
    |0 + 1 * (Real.sqrt (10 * (Real.exp Y - 1)) * 1) - 2.228| < 0.0005 := by
  have h3 : (1.49618 : ℝ) < Real.exp 0.40303 := by
    have h := Real.sum_le_exp_of_nonneg (x := (0.40303 : ℝ)) (by norm_num) 6
    have h2 : (1.49618 : ℝ)
        < ∑ i in Finset.range 6, (0.40303 : ℝ) ^ i / (i.factorial : ℝ) := by
      simp only [Finset.sum_range_succ, Finset.sum_range_zero, Nat.factorial]
      norm_num
    linarith
  have h4 : Real.exp 0.40316 < (1.49662 : ℝ) := by
    have h := Real.exp_bound' (x := (0.40316 : ℝ)) (by norm_num) (by norm_num) (n := 6)
      (by norm_num)
    have h2 : (∑ m in Finset.range 6, (0.40316 : ℝ) ^ m / (m.factorial : ℝ))
        + (0.40316 : ℝ) ^ 6 * ((6 : ℕ) + 1) / ((Nat.factorial 6 : ℕ) * (6 : ℕ))
          < (1.49662 : ℝ) := by
      simp only [Finset.sum_range_succ, Finset.sum_range_zero, Nat.factorial]
      norm_num
    linarith
  have h1 : Real.exp 0.40303 ≤ Real.exp Y := Real.exp_le_exp.mpr h.1
  have h2 : Real.exp Y ≤ Real.exp 0.40316 := Real.exp_le_exp.mpr h.2
  have h5 : 2.2275 < Real.sqrt (10 * (Real.exp Y - 1)) := by
    apply Real.lt_sqrt_of_sq_lt
    norm_num
    linarith
  have h6 : Real.sqrt (10 * (Real.exp Y - 1)) < 2.2285 := by
    rw [Real.sqrt_lt' (by norm_num)]
    norm_num
    linarith
  rw [abs_lt, zero_add, one_mul, mul_one]
  constructor <;> linarith

/-- The branch test of line 27 at `v = 10`, `z = 0.05`. -/
theorem hill_branch_ten (d : ℝ) (hd : 4.063492 ≤ d) :
    (0.05 * d) ^ ((2 : ℝ) / 10) > 0.05 + 2 / 19 := by
  have h1 : (0.16 : ℝ) = ((0.16 : ℝ) ^ (5 : ℝ)) ^ ((2 : ℝ) / 10) := by
    rw [← Real.rpow_mul (by norm_num)]
    norm_num
  have h2 : ((0.16 : ℝ) ^ (5 : ℝ)) ^ ((2 : ℝ) / 10) < (0.05 * d) ^ ((2 : ℝ) / 10) := by
    apply Real.rpow_lt_rpow (by positivity) _ (by norm_num)
    have : (0.16 : ℝ) ^ (5 : ℝ) = 0.16 ^ (5 : ℕ) := by
      rw [← Real.rpow_natCast]
      norm_num
    rw [this]
    norm_num
    linarith
  have h3 : (0.05 : ℝ) + 2 / 19 < 0.16 := by norm_num
  linarith

/-- The limits from the left at `mu` of the double normal and the double
Student-t log-densities: each is the left-side expression at `x = mu`. -/
theorem double_left_limits (mu s1 s2 v1 v2 : ℝ) (hv : 0 < v1) :
    Filter.Tendsto (fun x => ddnorm Rprims x mu s1 s2) (nhdsWithin mu (Set.Iio mu))
        (nhds (Real.log 2 - Real.log (s1 + s2) + Rprims.dnorm 0 0 1))
      ∧ Filter.Tendsto (fun x => ddt Rprims x mu s1 s2 v1 v2) (nhdsWithin mu (Set.Iio mu))
        (nhds (Real.log 2 - Real.log (s1 + s2) + Rprims.dt 0 v1)) := by
  have hmem : ∀ p : ℝ → Prop, (∀ x, x < mu → p x) →
      ∀ᶠ x in nhdsWithin mu (Set.Iio mu), p x :=
    fun p hp => eventually_nhdsWithin_of_forall hp
  have hlim : ∀ L : ℝ → ℝ, Continuous L →
      Filter.Tendsto L (nhdsWithin mu (Set.Iio mu)) (nhds (L mu)) :=
    fun L hL => (hL.tendsto mu).mono_left nhdsWithin_le_nhds
  refine ⟨?_, ?_⟩
  · have hc : Continuous (fun x : ℝ => Real.log 2 - Real.log (s1 + s2)
        + Rprims.dnorm ((x - mu) / s1) 0 1) := by
      show Continuous (fun x : ℝ => Real.log 2 - Real.log (s1 + s2)
        + (-Real.log (Real.sqrt (2 * Real.pi)) - Real.log 1
            - 0.5 * (((x - mu) / s1 - 0) / 1) ^ 2))
      fun_prop
    have h := hlim _ hc
    simp only [sub_self, zero_div] at h
    refine h.congr' (hmem _ ?_)
    intro x hx
    simp only [ddnorm, hx, if_true]
    rfl
  · have hc : Continuous (fun x : ℝ => Real.log 2 - Real.log (s1 + s2)
        + Rprims.dt ((x - mu) / s1) v1) := by
      show Continuous (fun x : ℝ => Real.log 2 - Real.log (s1 + s2)
        + (Real.log |Real.Gamma ((v1 + 1) / 2)| - 1 / 2 * Real.log (v1 * Real.pi)
            - Real.log |Real.Gamma (v1 / 2)|
            - (v1 + 1) / 2 * Real.log (1 + (x - mu) / s1 * ((x - mu) / s1) / v1)))
      have hpos : ∀ x : ℝ, 1 + (x - mu) / s1 * ((x - mu) / s1) / v1 ≠ 0 := by
        intro x
        have : 0 ≤ (x - mu) / s1 * ((x - mu) / s1) / v1 :=
          div_nonneg (mul_self_nonneg _) hv.le
        linarith
      have hlog : Continuous (fun x : ℝ =>
          Real.log (1 + (x - mu) / s1 * ((x - mu) / s1) / v1)) :=
        Continuous.log (by fun_prop) hpos
      fun_prop
    have h := hlim _ hc
    simp only [sub_self, zero_div] at h
    refine h.congr' (hmem _ ?_)
    intro x hx
    simp only [ddt, hx, if_true]
    rfl

end RealLemmas

/-! ## The claims -/

section Claims

open MeasureTheory ProbabilityTheory

/-- C1: for every configuration and input the value `operator()` returns is
`-(P + R + L)`: `P` the gamma log-prior terms, `R` the random-effect penalties
summed over the groups, `L` the family log-likelihood of `y(i)` given `pred(i)`
summed over the observations. -/
theorem C1_objective_eq_neg_sum {α : Type} [LinearOrderedField α] (P : Prims α) (d : Data α)
    (θ : Params α) :
    objective P d θ = -(priorSum P d θ + reSum P d θ + likSum P d θ) := by
  unfold objective finalState likSum
  rw [likStep_nll, preLik_nll]

/-- C2 (the code at the failing input): with the symmetric generalized-normal
tail model (`tail_model = 2`, `asymmetric = 0`) the reported
`range(i) = upper75(i) - lower25(i)` is `0` for every group and every
parameter value, because `qgnorm` returns the same value at 0.75 and 0.25. -/
theorem C2_range_zero_symmetric_gnorm {α : Type} [LinearOrderedField α] (P : Prims α)
    (d : Data α) (θ : Params α) (htail : d.tail_model = 2) (hasym : d.asymmetric = 0)
    (i : Nat) (hi : i < d.nLevels) : (finalState P d θ).range i = 0 := by
  rw [finalState_range]
  exact groupLoop_range_gnorm P d θ htail hasym _ _ i hi

/-- C2, at one group with scale 1 and shape `exp 0 = 1`: the range is 0. -/
theorem C2_range_zero_witness :
    (finalState Rprims (demoData 2 0 1) demoParams).range 0 = 0 :=
  C2_range_zero_symmetric_gnorm Rprims (demoData 2 0 1) demoParams rfl rfl 0 (by decide)

/-- C3: with both scales equal to `sigma > 0`, `ddnorm` is the
Normal(`mu`, `sigma`) log-density at `x`, and `qdnorm` at `p` is
`mu + sigma * qnorm(p, 0, 1)`. -/
theorem C3_double_normal_equal_sides (x mu sigma p : ℝ) (hs : 0 < sigma) :
    ddnorm Rprims x mu sigma sigma = normalLogPdf x mu sigma
      ∧ qdnorm Rprims p mu sigma sigma = mu + sigma * Rprims.qnorm p 0 1 := by
  constructor
  · rw [normalLogPdf_eq x mu sigma hs]
    have h2 : Real.log (sigma + sigma) = Real.log 2 + Real.log sigma := by
      rw [← two_mul, Real.log_mul (by norm_num) hs.ne']
    simp only [ddnorm, Rprims, ite_self, h2]
    simp
    ring
  · have e1 : 0.5 * p * (sigma + sigma) / sigma = p := by field_simp; ring
    have e2 : 0.5 * ((sigma + sigma) * (1 + p) - 2 * sigma) / sigma = p := by field_simp; ring
    simp only [qdnorm, e1, e2, ite_self]

/-- C3 at `x = 95`, `mu = 100`, `sigma = 3`, `p = 0.25`. -/
theorem C3_double_normal_witness :
    (0 : ℝ) < 3 ∧ (ddnorm Rprims 95 100 3 3 = normalLogPdf 95 100 3
      ∧ qdnorm Rprims 0.25 100 3 3 = 100 + 3 * Rprims.qnorm 0.25 0 1) :=
  ⟨by norm_num, C3_double_normal_equal_sides 95 100 3 0.25 (by norm_num)⟩

/-- C4: with both scales equal to `sigma > 0` and both degrees of freedom
equal to `v`, `ddt` is the symmetric-branch log-density
`dt((x - mu)/sigma, v, true) - log(sigma)` of line 349, and `qdt` at `p` is
`qthill(p, v, mu, sigma)`; for every `dt`, `qnorm`, `sqrt`, `pow` and `exp`. -/
theorem C4_double_t_equal_sides (P : Prims ℝ) (hlog : P.log = Real.log)
    (x mu sigma v p : ℝ) (hs : 0 < sigma) :
    ddt P x mu sigma sigma v v = P.dt ((x - mu) / sigma) v - P.log sigma
      ∧ qdt P p mu sigma sigma v v = qthill P p v mu sigma := by
  constructor
  · have h2 : Real.log (sigma + sigma) = Real.log 2 + Real.log sigma := by
      rw [← two_mul, Real.log_mul (by norm_num) hs.ne']
    simp only [ddt, ite_self, hlog, h2]
    ring
  · have e1 : 0.5 * p * (sigma + sigma) / sigma = p := by field_simp; ring
    have e2 : 0.5 * ((sigma + sigma) * (1 + p) - 2 * sigma) / sigma = p := by field_simp; ring
    simp only [qdt, e1, e2, ite_self]
    simp only [qthill]
    ring

/-- C4 at `x = 95`, `mu = 100`, `sigma = 3`, `v = 10`, `p = 0.25`. -/
theorem C4_double_t_witness :
    Rprims.log = Real.log ∧ (0 : ℝ) < 3
      ∧ (ddt Rprims 95 100 3 3 10 10 = Rprims.dt ((95 - 100) / 3) 10 - Rprims.log 3
        ∧ qdt Rprims 0.25 100 3 3 10 10 = qthill Rprims 0.25 10 100 3) :=
  ⟨rfl, by norm_num, C4_double_t_equal_sides Rprims rfl 95 100 3 10 0.25 (by norm_num)⟩

/-- C5 (the code at equal sides): with both sides equal, `ddgnorm` is
`dgnorm(x, mu, alpha, beta) - log(sigma)`, not `dgnorm(x, mu, alpha, beta)`,
and `qdgnorm` is `mu + sigma * qgnorm(p, mu, sigma * ratio, beta)`, not
`qgnorm(p, mu, sigma * ratio, beta)`. -/
theorem C5_double_gnorm_equal_sides (x mu alpha beta sigma p ratio : ℝ) (hs : 0 < sigma) :
    ddgnorm Rprims x mu alpha alpha beta beta sigma sigma
        = dgnorm Rprims x mu alpha beta - Real.log sigma
      ∧ qdgnorm Rprims p mu sigma sigma ratio ratio beta beta
        = mu + sigma * qgnorm Rprims p mu (sigma * ratio) beta := by
  constructor
  · have h2 : Real.log (sigma + sigma) = Real.log 2 + Real.log sigma := by
      rw [← two_mul, Real.log_mul (by norm_num) hs.ne']
    simp only [ddgnorm, ite_self]
    show Real.log 2 - Real.log (sigma + sigma) + _ = _
    rw [h2]
    ring
  · have e1 : 0.5 * p * (sigma + sigma) / sigma = p := by field_simp; ring
    have e2 : 0.5 * ((sigma + sigma) * (1 + p) - 2 * sigma) / sigma = p := by field_simp; ring
    simp only [qdgnorm, e1, e2, ite_self]

/-- C5 at `x = 0`, `mu = 1`, `sigma = 2`, `ratio = 1` (`alpha = 2`), `beta = 2`,
`p = 0.5`: neither the density nor the quantile of the double generalized
normal reduces to the single-sided one. -/
theorem C5_double_gnorm_differs :
    ddgnorm Rprims 0 1 2 2 2 2 2 2 ≠ dgnorm Rprims 0 1 2 2
      ∧ qdgnorm Rprims 0.5 1 2 2 1 1 2 2 ≠ qgnorm Rprims 0.5 1 (2 * 1) 2 := by
  obtain ⟨h1, h2⟩ := C5_double_gnorm_equal_sides 0 1 2 2 2 0.5 1 (by norm_num)
  constructor
  · rw [h1]
    have : 0 < Real.log 2 := Real.log_pos (by norm_num)
    intro h
    linarith
  · rw [h2, qgnorm_half]
    norm_num

/-- C6: the double normal density is normalised.  For every `mu` and every
`sigma1 > 0`, `sigma2 > 0`, the integral of `exp(ddnorm(x, mu, sigma1, sigma2))`
over the real line is 1, and the mass to the left of `mu` is
`sigma1/(sigma1 + sigma2)`. -/
theorem C6_double_normal_normalised (mu sigma1 sigma2 : ℝ) (h1 : 0 < sigma1) (h2 : 0 < sigma2) :
    ∫ x, Real.exp (ddnorm Rprims x mu sigma1 sigma2) = 1
      ∧ ∫ x in Set.Iio mu, Real.exp (ddnorm Rprims x mu sigma1 sigma2)
          = sigma1 / (sigma1 + sigma2) := by
  set K : ℝ := 2 / ((sigma1 + sigma2) * Real.sqrt (2 * Real.pi)) with hK
  have hb1 : (0 : ℝ) < 1 / (2 * sigma1 ^ 2) := by positivity
  have hb2 : (0 : ℝ) < 1 / (2 * sigma2 ^ 2) := by positivity
  have eL : ∫ x in Set.Iio mu, Real.exp (ddnorm Rprims x mu sigma1 sigma2)
      = ∫ x in Set.Iio mu, K * Real.exp (-(1 / (2 * sigma1 ^ 2)) * (x - mu) ^ 2) :=
    setIntegral_congr_fun measurableSet_Iio
      (fun x hx => (exp_ddnorm_eq x mu sigma1 sigma2 h1 h2).1 hx)
  have eR : ∫ x in Set.Ici mu, Real.exp (ddnorm Rprims x mu sigma1 sigma2)
      = ∫ x in Set.Ici mu, K * Real.exp (-(1 / (2 * sigma2 ^ 2)) * (x - mu) ^ 2) :=
    setIntegral_congr_fun measurableSet_Ici
      (fun x hx => (exp_ddnorm_eq x mu sigma1 sigma2 h1 h2).2 (not_lt.mpr hx))
  have vL : ∫ x in Set.Iio mu, Real.exp (ddnorm Rprims x mu sigma1 sigma2)
      = sigma1 / (sigma1 + sigma2) := by
    rw [eL, integral_mul_left, (gauss_shift_integrals mu _).2.2, hK, half_gauss_mass _ _ h1 h2]
  have vR : ∫ x in Set.Ici mu, Real.exp (ddnorm Rprims x mu sigma1 sigma2)
      = sigma2 / (sigma1 + sigma2) := by
    rw [eR, integral_mul_left, integral_Ici_eq_integral_Ioi, (gauss_shift_integrals mu _).2.1, hK,
      add_comm sigma1 sigma2, half_gauss_mass _ _ h2 h1]
  have iL : IntegrableOn (fun x => Real.exp (ddnorm Rprims x mu sigma1 sigma2)) (Set.Iio mu) := by
    have : IntegrableOn (fun x => K * Real.exp (-(1 / (2 * sigma1 ^ 2)) * (x - mu) ^ 2))
        (Set.Iio mu) := (((gauss_shift_integrals mu _).1 hb1).const_mul K).integrableOn
    exact this.congr_fun
      (fun x hx => ((exp_ddnorm_eq x mu sigma1 sigma2 h1 h2).1 hx).symm) measurableSet_Iio
  have iR : IntegrableOn (fun x => Real.exp (ddnorm Rprims x mu sigma1 sigma2)) (Set.Ici mu) := by
    have : IntegrableOn (fun x => K * Real.exp (-(1 / (2 * sigma2 ^ 2)) * (x - mu) ^ 2))
        (Set.Ici mu) := (((gauss_shift_integrals mu _).1 hb2).const_mul K).integrableOn
    exact this.congr_fun
      (fun x hx => ((exp_ddnorm_eq x mu sigma1 sigma2 h1 h2).2 (not_lt.mpr hx)).symm)
      measurableSet_Ici
  refine ⟨?_, vL⟩
  rw [← intervalIntegral.integral_Iio_add_Ici iL iR, vL, vR]
  field_simp

/-- C6 at `mu = 0`, `sigma1 = 1`, `sigma2 = 2`. -/
theorem C6_double_normal_witness :
    (0 : ℝ) < 1 ∧ (0 : ℝ) < 2
      ∧ (∫ x, Real.exp (ddnorm Rprims x 0 1 2) = 1
        ∧ ∫ x in Set.Iio 0, Real.exp (ddnorm Rprims x 0 1 2) = 1 / (1 + 2)) :=
  ⟨by norm_num, by norm_num, C6_double_normal_normalised 0 1 2 (by norm_num) (by norm_num)⟩

/-- C7: for `alpha > 0`, `dgnorm(x, mu, alpha, 2)` is the log-density of
Normal(`mu`, sd `alpha/√2`) at `x`; with `alpha = sigma * beta_ratio` as the
parameter assembly builds it at shape 2 (lines 248, 282), it is the
Normal(`mu`, `sigma`) log-density. -/
theorem C7_dgnorm_shape_two (x mu alpha sigma : ℝ) (ha : 0 < alpha) (hs : 0 < sigma) :
    dgnorm Rprims x mu alpha 2 = normalLogPdf x mu (alpha / Real.sqrt 2)
      ∧ dgnorm Rprims x mu (sigma * betaRatioOf Rprims 2) 2 = normalLogPdf x mu sigma := by
  have hpi : (0 : ℝ) < Real.sqrt Real.pi := Real.sqrt_pos.mpr Real.pi_pos
  have h2 : (0 : ℝ) < Real.sqrt 2 := Real.sqrt_pos.mpr (by norm_num)
  have hg1 : Real.Gamma (1 / 2) = Real.sqrt Real.pi := Real.Gamma_one_half_eq
  have hg3 : Real.Gamma (3 / 2) = 1 / 2 * Real.sqrt Real.pi := by
    have : (3 / 2 : ℝ) = 1 / 2 + 1 := by norm_num
    rw [this, Real.Gamma_add_one (by norm_num), hg1]
  have hratio : betaRatioOf Rprims 2 = Real.sqrt 2 := by
    simp only [betaRatioOf, Rprims]
    rw [hg1, hg3, abs_of_pos hpi, abs_of_pos (by positivity), Real.exp_log hpi,
      Real.exp_log (by positivity)]
    congr 1
    field_simp
  have hd : ∀ a : ℝ, 0 < a → dgnorm Rprims x mu a 2 = normalLogPdf x mu (a / Real.sqrt 2) := by
    intro a ha0
    rw [normalLogPdf_eq x mu _ (by positivity)]
    simp only [dgnorm, Rprims]
    rw [hg1, abs_of_pos hpi, Real.sqrt_mul (by norm_num), Real.log_mul h2.ne' hpi.ne',
      Real.log_div ha0.ne' h2.ne']
    have hpow : (|x - mu| / a) ^ (2 : ℝ) = 0.5 * ((x - mu) / (a / Real.sqrt 2)) ^ 2 := by
      rw [Real.rpow_two, div_pow, sq_abs, div_pow, div_pow, Real.sq_sqrt (by norm_num)]
      field_simp
      ring
    rw [hpow]
    ring
  refine ⟨hd alpha ha, ?_⟩
  rw [hratio, hd _ (by positivity)]
  congr 1
  field_simp

/-- C7 at `x = 95`, `mu = 100`, `alpha = 2`, `sigma = 3`. -/
theorem C7_dgnorm_shape_two_witness :
    (0 : ℝ) < 2 ∧ (0 : ℝ) < 3
      ∧ (dgnorm Rprims 95 100 2 2 = normalLogPdf 95 100 (2 / Real.sqrt 2)
        ∧ dgnorm Rprims 95 100 (3 * betaRatioOf Rprims 2) 2 = normalLogPdf 95 100 3) :=
  ⟨by norm_num, by norm_num, C7_dgnorm_shape_two 95 100 2 3 (by norm_num) (by norm_num)⟩

/-- C8 (the code above the median): for `p > 0.5` and `alpha > 0`,
`qgnorm(p, mu, alpha, 2)` lies strictly below `mu`, while the Normal quantile
`mu + (alpha/√2) * qnorm(p, 0, 1)` lies at or above `mu`. -/
theorem C8_qgnorm_above_median (p mu alpha : ℝ) (hp : 0.5 < p) (ha : 0 < alpha) :
    qgnorm Rprims p mu alpha 2 < mu
      ∧ mu ≤ mu + alpha / Real.sqrt 2 * Rprims.qnorm p 0 1 := by
  constructor
  · have h2 : 1 - p - 0.5 < 0 := by norm_num at hp ⊢; linarith
    simp only [qgnorm, gt_iff_lt, hp, h2, if_true]
    have := Real.exp_pos
      (Rprims.log (Rprims.qgamma (Rprims.fabs (1 - p - 0.5) * 2) (1 / 2)
        (1 / Rprims.pow (1 / alpha) 2)) / 2)
    show -1 * Real.exp _ + mu < mu
    linarith
  · have hq : 0 ≤ stdNormalQuantile p := stdNormalQuantile_facts.2.2 p hp
    have h2 : (0 : ℝ) < Real.sqrt 2 := Real.sqrt_pos.mpr (by norm_num)
    show mu ≤ mu + alpha / Real.sqrt 2 * (0 + 1 * stdNormalQuantile p)
    have : 0 ≤ alpha / Real.sqrt 2 * (0 + 1 * stdNormalQuantile p) := by positivity
    linarith

/-- C8 at `p = 0.75`, `mu = 0`, `alpha = 1`: `qgnorm` is not the Normal quantile. -/
theorem C8_qgnorm_differs :
    qgnorm Rprims 0.75 0 1 2 ≠ 0 + 1 / Real.sqrt 2 * Rprims.qnorm 0.75 0 1 := by
  obtain ⟨h1, h2⟩ := C8_qgnorm_above_median 0.75 0 1 (by norm_num) (by norm_num)
  intro h
  rw [h] at h1
  linarith

/-- C9: the median is the location.  For every `mean`, `sigma` and every
`v ≥ 2`, `qthill(0.5, v, mean, sigma) = mean`, and for every `mu`, `alpha`,
`beta`, `qgnorm(0.5, mu, alpha, beta) = mu`; with the real `sqrt` and `pow`
and any `qnorm` with `qnorm(0.5, 0, 1) = 0`. -/
theorem C9_median_is_location (P : Prims ℝ) (hsqrt : P.sqrt = Real.sqrt)
    (hpow : ∀ x y : ℝ, P.pow x y = x ^ y) (hq : P.qnorm 0.5 0 1 = 0)
    (v mean sigma mu alpha beta : ℝ) (hv : 2 ≤ v) :
    qthill P 0.5 v mean sigma = mean ∧ qgnorm P 0.5 mu alpha beta = mu := by
  constructor
  · obtain ⟨ha0, ha1, -, -, hd⟩ := hill_coeff_bounds v hv
    have h2v : 0 ≤ 2 / v := by positivity
    have hq2 : P.qnorm (2 * 0.5 * 0.5) 0 1 = 0 := by
      have h : (2 * 0.5 * 0.5 : ℝ) = 0.5 := by norm_num
      rw [h, hq]
    simp only [qthill, hsqrt, hpow, gt_iff_lt, lt_self_iff_false, if_false, hq2]
    set a : ℝ := 1 / (v - 0.5)
    set b : ℝ := 48 / (a * a)
    set c : ℝ := ((20700 * a / b - 98) * a - 16) * a + 96.36
    set d : ℝ := ((94.5 / (b + c) - 3) / b + 1) * √(a * 3.14159265 / 2) * v
    have hbranch : 0.05 + a < (2 * 0.5 * d) ^ (2 / v) := by
      have h1 : (1 : ℝ) ≤ (2 * 0.5 * d) ^ (2 / v) := by
        apply Real.one_le_rpow _ h2v
        linarith
      have h2 : 0.05 + a < 1 := by
        norm_num at ha1 ⊢
        linarith
      linarith
    rw [if_pos hbranch]
    norm_num
  · simp [qgnorm]

/-- C9 with the true normal quantile, at `v = 10`, location 100, scale 3. -/
theorem C9_median_witness :
    Rprims.sqrt = Real.sqrt ∧ (∀ x y : ℝ, Rprims.pow x y = x ^ y)
      ∧ Rprims.qnorm 0.5 0 1 = 0 ∧ (2 : ℝ) ≤ 10
      ∧ (qthill Rprims 0.5 10 100 3 = 100 ∧ qgnorm Rprims 0.5 100 3 2 = 100) :=
  have hq : Rprims.qnorm 0.5 0 1 = 0 := by
    show (0 : ℝ) + 1 * stdNormalQuantile 0.5 = 0
    rw [stdNormalQuantile_facts.2.1]
    norm_num
  ⟨rfl, fun _ _ => rfl, hq, by norm_num,
    C9_median_is_location Rprims rfl (fun _ _ => rfl) hq 10 100 3 100 3 2 (by norm_num)⟩

/-- C10: `qthill(0.975, 10, 0, 1)`, with the branch structure and constants
of the code (pi taken as 3.14159265) and the true standard normal quantile for
`qnorm`, lies within 0.0005 of the table value 2.228. -/
theorem C10_qthill_table_value : |qthill Rprims 0.975 10 0 1 - 2.228| < 0.0005 := by
  have hflip : (0.975 : ℝ) > 0.5 := by norm_num
  have ha : (1 : ℝ) / (10 - 0.5) = 2 / 19 := by norm_num
  have hb : (48 : ℝ) / (2 / 19 * (2 / 19)) = 4332 := by norm_num
  have hz : (2 : ℝ) * (1 - 0.975) = 0.05 := by norm_num
  have hz2 : (0.05 : ℝ) * 0.5 = 0.025 := by norm_num
  have hv : ¬ ((10 : ℝ) < 5) := by norm_num
  have hsq : Rprims.sqrt = Real.sqrt := rfl
  have hpw : ∀ x y : ℝ, Rprims.pow x y = x ^ y := fun _ _ => rfl
  have hex : Rprims.exp = Real.exp := rfl
  have hqn : Rprims.qnorm 0.025 0 1 = stdNormalQuantile 0.025 := by
    show 0 + 1 * stdNormalQuantile 0.025 = _
    ring
  simp only [qthill, hflip, if_true, ha, hb, hz, hz2, hv, if_false, hsq, hpw, hex, hqn]
  obtain ⟨hcb, hdb⟩ := hill_cd_ten
  have hxb := stdNormalQuantile_025
  set c : ℝ := ((20700 * (2 / 19) / 4332 - 98) * (2 / 19) - 16) * (2 / 19) + 96.36 with hc
  set d : ℝ := ((94.5 / (4332 + c) - 3) / 4332 + 1) * Real.sqrt (2 / 19 * 3.14159265 / 2) * 10
    with hd
  set x : ℝ := stdNormalQuantile 0.025 with hx
  have hbranch := hill_branch_ten d hdb.1
  have core := hill_core_bounds c d x _ _ _ _ _ _ _ _ _ _ _ _ _ _ _ _ _ _ _ _ hcb hdb hxb
    rfl rfl rfl rfl rfl rfl rfl rfl rfl rfl rfl rfl rfl rfl rfl rfl rfl rfl rfl rfl
  rw [if_pos hbranch, if_pos (lt_of_lt_of_le (by norm_num) core.1)]
  exact hill_finish _ core

/-- C11 (the code, for every input): under the generalized-normal tail model
the code leaves in `alpha1(i)`, for `i < nLevels`, the scale of the group
`years(i)-1` of observation `i` (its fixed effect, plus its deviation when
`est_sigma_re = 1` and the per-group loop has reached that group by step `i`)
times `sqrt(exp(lgamma(1/beta_1)) / exp(lgamma(3/beta_1)))`; it is the scale
of group `i` itself only when `years(i)-1 = i`. -/
theorem C11_alpha1_uses_observation_group {α : Type} [LinearOrderedField α] (P : Prims α)
    (d : Data α) (θ : Params α) (htail : d.tail_model = 2) (i : Nat) (hi : i < d.nLevels) :
    (finalState P d θ).alpha1 i
      = (matVec d.sig_mat d.sig_cols θ.b_sig1 (yearIdx d i)
          + (if d.est_sigma_re = 1 ∧ yearIdx d i ≤ i then θ.sigma1_devs (yearIdx d i) else 0))
        * betaRatioOf P (beta_1 P θ) := by
  obtain ⟨-, -, -, ha1, -⟩ := finalState_groupFields P d θ
  rw [ha1]
  unfold afterGroups
  rw [groupLoop_alpha1 P d θ htail d.nLevels _ i hi]
  have hf : ∀ s : State α, (fixedStep d θ s).sigma1 = matVec d.sig_mat d.sig_cols θ.b_sig1 := by
    intro s
    unfold fixedStep
    simp only []
    split_ifs <;> rfl
  have hbr : beta_ratio P d θ 0 = betaRatioOf P (beta_1 P θ) := by
    unfold beta_ratio
    simp only [htail, if_true]
    split_ifs <;> simp [setv]
  rw [hf, hbr]

/-- C11, at two groups with scales 1 and 2 whose first observation belongs to
group 2: `alpha1(0)` is twice the ratio, the scale of group 0 is 1, so
`alpha1(0)` is not `sigma1(0)` times the ratio. -/
theorem C11_alpha1_differs :
    (finalState Rprims (demoData2 2 0 1) demoParams).alpha1 0
        = 2 * betaRatioOf Rprims (beta_1 Rprims demoParams)
      ∧ (finalState Rprims (demoData2 2 0 1) demoParams).sigma1 0 = 1
      ∧ (finalState Rprims (demoData2 2 0 1) demoParams).alpha1 0
        ≠ (finalState Rprims (demoData2 2 0 1) demoParams).sigma1 0
            * betaRatioOf Rprims (beta_1 Rprims demoParams) := by
  have h := C11_alpha1_uses_observation_group Rprims (demoData2 2 0 1) demoParams rfl 0
    Nat.zero_lt_two
  have hy : yearIdx (demoData2 2 0 1 : Data ℝ) 0 = 1 := rfl
  have hs := (finalState_sigma1_mu Rprims (demoData2 2 0 1) demoParams 0).1
  have hm1 : matVec (demoData2 2 0 1 : Data ℝ).sig_mat (demoData2 2 0 1 : Data ℝ).sig_cols
      (demoParams : Params ℝ).b_sig1 1 = 2 := by
    simp [matVec, forLoop, demoData2, demoParams]
    norm_num
  have hm0 : matVec (demoData2 2 0 1 : Data ℝ).sig_mat (demoData2 2 0 1 : Data ℝ).sig_cols
      (demoParams : Params ℝ).b_sig1 0 = 1 := by
    simp [matVec, forLoop, demoData2, demoParams]
  have hre : (demoData2 2 0 1 : Data ℝ).est_sigma_re = 0 := rfl
  rw [hy, hm1, hre] at h
  rw [hm0, hre] at hs
  simp only [show ¬ ((0 : Int) = 1) by decide, false_and, if_false, add_zero] at h hs
  have hr : 0 < betaRatioOf Rprims (beta_1 Rprims demoParams) := by
    show 0 < Real.sqrt (Real.exp (Real.log |Real.Gamma (1 / Real.exp 0)|)
      / Real.exp (Real.log |Real.Gamma (3 / Real.exp 0)|))
    exact Real.sqrt_pos.mpr (div_pos (Real.exp_pos _) (Real.exp_pos _))
  refine ⟨h, hs, ?_⟩
  rw [h, hs]
  intro hcon
  linarith

/-- C12 (the code, for every input): with `r = sigma1/(sigma1 + sigma2)`, below
`r` `qdt` is `mu + sigma1 * qthill(0.5*p*(sigma1+sigma2)/sigma1, tdf_1, 0, 1)`;
at or above `r` it is
`mu + sigma2 * qthill(0.5*((sigma1+sigma2)*(1+p) - 2*sigma1)/sigma2, tdf_1, 0, 1)`,
with the left side's degrees of freedom `tdf_1`; the value of `qdt` does not
depend on `tdf_2` at all. -/
theorem C12_qdt_right_side_uses_tdf_1 {α : Type} [LinearOrderedField α] (P : Prims α)
    (p mu sigma1 sigma2 tdf_1 tdf_2 tdf_2' : α) :
    (p < sigma1 / (sigma1 + sigma2) →
        qdt P p mu sigma1 sigma2 tdf_1 tdf_2
          = mu + sigma1 * qthill P (0.5 * p * (sigma1 + sigma2) / sigma1) tdf_1 0 1)
      ∧ (¬ p < sigma1 / (sigma1 + sigma2) →
          qdt P p mu sigma1 sigma2 tdf_1 tdf_2
            = mu + sigma2
                * qthill P (0.5 * ((sigma1 + sigma2) * (1 + p) - 2 * sigma1) / sigma2) tdf_1 0 1)
      ∧ qdt P p mu sigma1 sigma2 tdf_1 tdf_2 = qdt P p mu sigma1 sigma2 tdf_1 tdf_2' := by
  refine ⟨?_, ?_, rfl⟩
  · intro h
    simp only [qdt, h, if_true]
  · intro h
    simp only [qdt, h, if_false]

/-- C13: when `asymmetric = 0`, two evaluations on the same data and
configuration whose parameters agree except for `b_sig2`, `sigma2_devs`,
`log_sigma2_sd`, `log_tdf_2` and `log_beta_2` return the same objective and
report the same `mu`, `sigma1`, `pred`, `lower25`, `upper75`, `range`,
`year_tot` and `year_log_tot`, for every tail model, family, random-effect
toggle and `share_shape`. -/
theorem C13_second_side_no_influence {α : Type} [LinearOrderedField α] (P : Prims α)
    (d : Data α) (θ θ' : Params α) (hasym : d.asymmetric = 0)
    (h1 : θ'.log_sigma1_sd = θ.log_sigma1_sd) (h2 : θ'.sigma1_devs = θ.sigma1_devs)
    (h3 : θ'.theta = θ.theta) (h4 : θ'.mu_devs = θ.mu_devs)
    (h5 : θ'.log_sigma_mu_devs = θ.log_sigma_mu_devs) (h6 : θ'.log_tdf_1 = θ.log_tdf_1)
    (h7 : θ'.log_beta_1 = θ.log_beta_1) (h8 : θ'.log_obs_sigma = θ.log_obs_sigma)
    (h9 : θ'.b_mu = θ.b_mu) (h10 : θ'.b_sig1 = θ.b_sig1) :
    objective P d θ' = objective P d θ
      ∧ (finalState P d θ').mu = (finalState P d θ).mu
      ∧ (finalState P d θ').sigma1 = (finalState P d θ).sigma1
      ∧ (finalState P d θ').pred = (finalState P d θ).pred
      ∧ (finalState P d θ').lower25 = (finalState P d θ).lower25
      ∧ (finalState P d θ').upper75 = (finalState P d θ).upper75
      ∧ (finalState P d θ').range = (finalState P d θ).range
      ∧ (finalState P d θ').year_tot = (finalState P d θ).year_tot
      ∧ (finalState P d θ').year_log_tot = (finalState P d θ).year_log_tot := by
  have h01 : ¬ ((0 : Int) = 1) := by decide
  have ht1 : tdf_1 P θ' = tdf_1 P θ := by unfold tdf_1; rw [h6]
  have hb1 : beta_1 P θ' = beta_1 P θ := by unfold beta_1; rw [h7]
  have hos : obs_sigma P θ' = obs_sigma P θ := by unfold obs_sigma; rw [h8]
  have hbr : beta_ratio P d θ' 0 = beta_ratio P d θ 0 := by
    unfold beta_ratio
    simp only [hasym, h01, if_false, hb1]
  have hprior : priorStep P d θ' = priorStep P d θ := by
    funext s
    unfold priorStep
    simp only [hasym, h01, if_false, ht1, hb1]
  have hre : reStep P d θ' = reStep P d θ := by
    funext i s
    unfold reStep
    simp only [hasym, h01, if_false, h1, h2, h4, h5]
  have hfix : fixedStep d θ' = fixedStep d θ := by
    funext s
    unfold fixedStep
    simp only [hasym, h01, if_false, h9, h10]
  have hgroup : groupStep P d θ' = groupStep P d θ := by
    funext i s
    unfold groupStep quartileStep muStep alphaStep devStep
    simp only [hasym, h01, if_false, if_true, ht1, hb1, hbr, h2, h4]
  have htail : tailDens P d θ' = tailDens P d θ := by
    funext s xv g old
    unfold tailDens
    simp only [hasym, h01, if_false, ht1, hb1]
  have hpred : predStep P d θ' = predStep P d θ := by
    funext i s
    unfold predStep
    simp only [htail, h3]
  have hyear : yearStep P d θ' = yearStep P d θ := by
    funext i s
    have hday : dayStep P d θ' i = dayStep P d θ i := by
      funext k s
      unfold dayStep
      simp only [htail, h3]
    unfold yearStep
    simp only [hday]
  have hnb : nbStep P d θ' = nbStep P d θ := by
    funext i s
    unfold nbStep
    simp only [h8]
  have hlik : likStep P d θ' = likStep P d θ := by
    funext s
    unfold likStep
    simp only [hnb, hos]
  have hfinal : finalState P d θ' = finalState P d θ := by
    unfold finalState preLik
    simp only [hprior, hre, hfix, hgroup, hpred, hyear, hlik]
  unfold objective
  rw [hfinal]
  exact ⟨rfl, rfl, rfl, rfl, rfl, rfl, rfl, rfl, rfl⟩

/-- C13, at one symmetric Student-t group: changing all five second-side
parameters changes neither the objective nor the reported range. -/
theorem C13_second_side_witness :
    objective Rprims (demoData 1 0 1) demoParams2 = objective Rprims (demoData 1 0 1) demoParams
      ∧ (finalState Rprims (demoData 1 0 1) demoParams2).range
        = (finalState Rprims (demoData 1 0 1) demoParams).range :=
  have h := C13_second_side_no_influence Rprims (demoData 1 0 1) demoParams demoParams2
    rfl rfl rfl rfl rfl rfl rfl rfl rfl rfl rfl
  ⟨h.1, h.2.2.2.2.2.2.1⟩

/-- C14: the likelihood block adds to `nll`, for the Poisson family
(`family = 2`), the Poisson log-pmf of `y(i)` at rate
`exp(min(log_dens(i) + theta(g_i), 20))` for every observation `i`; for the
families 1, 3, 4 and 5 it adds the family's log-density evaluated at the
unclamped `log_dens(i) + theta(g_i)`, whatever its value. -/
theorem C14_only_poisson_clamps {α : Type} [LinearOrderedField α] (P : Prims α) (d : Data α)
    (θ : Params α) :
    (d.family = 2 → (finalState P d θ).nll = (preLik P d θ).nll
        + ∑ i in Finset.range d.n, P.dpois (d.y i)
            (P.exp (min ((preLik P d θ).log_dens i + θ.theta (yearIdx d i)) 20)))
      ∧ (d.family = 1 → (finalState P d θ).nll = (preLik P d θ).nll
        + ∑ i in Finset.range d.n, P.dnorm (d.y i)
            ((preLik P d θ).log_dens i + θ.theta (yearIdx d i)) (obs_sigma P θ))
      ∧ (d.family = 3 → (finalState P d θ).nll = (preLik P d θ).nll
        + ∑ i in Finset.range d.n, P.dnbinom_robust (d.y i)
            ((preLik P d θ).log_dens i + θ.theta (yearIdx d i))
            (2 * ((preLik P d θ).log_dens i + θ.theta (yearIdx d i)) - θ.log_obs_sigma))
      ∧ (d.family = 4 → (finalState P d θ).nll = (preLik P d θ).nll
        + ∑ i in Finset.range d.n, P.dbinom_robust (d.y i) 1
            ((preLik P d θ).log_dens i + θ.theta (yearIdx d i)))
      ∧ (d.family = 5 → (finalState P d θ).nll = (preLik P d θ).nll
        + ∑ i in Finset.range d.n, P.dnorm (P.log (d.y i))
            ((preLik P d θ).log_dens i + θ.theta (yearIdx d i)) (obs_sigma P θ)) := by
  have hnll : (finalState P d θ).nll = (preLik P d θ).nll
      + ∑ i in Finset.range d.n,
          famLogLik P d θ (d.y i) ((preLik P d θ).log_dens i + θ.theta (yearIdx d i)) := by
    unfold finalState
    rw [likStep_nll]
    congr 1
    apply Finset.sum_congr rfl
    intro i hi
    rw [(predLoop_fields P d θ i (Finset.mem_range.mp hi)).2.1]
  refine ⟨?_, ?_, ?_, ?_, ?_⟩ <;> intro hf <;> rw [hnll] <;> unfold famLogLik <;>
    simp only [hf] <;> norm_num

/-- C15: with the symmetric Gaussian tail model (`asymmetric = 0`,
`tail_model = 0`) and a positive scale for the group of observation `i`,
`log_dens(i)` is the Normal log-density of `x(i)` with mean `mu(years(i)-1)`
and sd `sigma1(years(i)-1)`, the prediction loop sets
`pred(i) = log_dens(i) + theta(years(i)-1)`, and that log-density, as a
function of `x`, is strictly below its value at `x = mu` everywhere else. -/
theorem C15_gaussian_log_dens (d : Data ℝ) (θ : Params ℝ) (hasym : d.asymmetric = 0)
    (htail : d.tail_model = 0) (i : Nat) (hi : i < d.n)
    (hs : 0 < (finalState Rprims d θ).sigma1 (yearIdx d i)) :
    (finalState Rprims d θ).log_dens i
        = normalLogPdf (d.x i) ((finalState Rprims d θ).mu (yearIdx d i))
            ((finalState Rprims d θ).sigma1 (yearIdx d i))
      ∧ (preLik Rprims d θ).pred i
        = (finalState Rprims d θ).log_dens i + θ.theta (yearIdx d i)
      ∧ (∀ x : ℝ, x ≠ (finalState Rprims d θ).mu (yearIdx d i) →
          normalLogPdf x ((finalState Rprims d θ).mu (yearIdx d i))
              ((finalState Rprims d θ).sigma1 (yearIdx d i))
            < normalLogPdf ((finalState Rprims d θ).mu (yearIdx d i))
                ((finalState Rprims d θ).mu (yearIdx d i))
                ((finalState Rprims d θ).sigma1 (yearIdx d i))) := by
  obtain ⟨hmu, hs1, -⟩ := finalState_groupFields Rprims d θ
  obtain ⟨hl, hp, hfl⟩ := predLoop_fields Rprims d θ i hi
  refine ⟨?_, ?_, ?_⟩
  · rw [hfl, hl, normalLogPdf_eq _ _ _ hs, hmu, hs1]
    unfold tailDens
    simp only [hasym, htail, if_true]
    rw [if_neg (by decide)]
    rfl
  · rw [hfl]
    exact hp
  · intro x hx
    rw [normalLogPdf_eq _ _ _ hs, normalLogPdf_eq _ _ _ hs]
    have hne : (x - (finalState Rprims d θ).mu (yearIdx d i))
        / (finalState Rprims d θ).sigma1 (yearIdx d i) ≠ 0 :=
      div_ne_zero (sub_ne_zero.mpr hx) hs.ne'
    have hpos := sq_pos_of_ne_zero hne
    simp only [sub_self, zero_div]
    norm_num
    linarith

/-- C15, at one group with `mu = 100`, `sigma = 1` and `x = 95, 100, 105`:
the three `log_dens` are the Normal(100, 1) log-densities at 95, 100 and 105,
and the one at 100 is the largest. -/
theorem C15_gaussian_witness :
    (finalState Rprims (demoData 0 0 1) demoParams).log_dens 0 = normalLogPdf 95 100 1
      ∧ (finalState Rprims (demoData 0 0 1) demoParams).log_dens 1 = normalLogPdf 100 100 1
      ∧ (finalState Rprims (demoData 0 0 1) demoParams).log_dens 2 = normalLogPdf 105 100 1
      ∧ normalLogPdf 95 100 1 < normalLogPdf 100 100 1
      ∧ normalLogPdf 105 100 1 < normalLogPdf 100 100 1 := by
  have hy : ∀ i, yearIdx (demoData 0 0 1 : Data ℝ) i = 0 := fun _ => rfl
  obtain ⟨hs, hm⟩ := finalState_sigma1_mu Rprims (demoData 0 0 1) demoParams 0
  have hs1 : (finalState Rprims (demoData 0 0 1) demoParams).sigma1 0 = 1 := by
    rw [hs]
    simp [matVec, forLoop, demoData, demoParams]
  have hmu : (finalState Rprims (demoData 0 0 1) demoParams).mu 0 = 100 := by
    rw [hm]
    simp [matVec, forLoop, demoData, demoParams]
  have hpos : ∀ i, 0 < (finalState Rprims (demoData 0 0 1) demoParams).sigma1
      (yearIdx (demoData 0 0 1 : Data ℝ) i) := by
    intro i
    rw [hy, hs1]
    exact one_pos
  have h0 := C15_gaussian_log_dens (demoData 0 0 1) demoParams rfl rfl 0 (by decide) (hpos 0)
  have h1 := C15_gaussian_log_dens (demoData 0 0 1) demoParams rfl rfl 1 (by decide) (hpos 1)
  have h2 := C15_gaussian_log_dens (demoData 0 0 1) demoParams rfl rfl 2 (by decide) (hpos 2)
  rw [hy, hmu, hs1] at h0 h1 h2
  have x0 : (demoData 0 0 1 : Data ℝ).x 0 = 95 := by simp [demoData]
  have x1 : (demoData 0 0 1 : Data ℝ).x 1 = 100 := by
    simp [demoData]
    norm_num
  have x2 : (demoData 0 0 1 : Data ℝ).x 2 = 105 := by
    simp [demoData]
    norm_num
  rw [x0] at h0
  rw [x1] at h1
  rw [x2] at h2
  exact ⟨h0.1, h1.1, h2.1, h0.2.2 95 (by norm_num), h0.2.2 105 (by norm_num)⟩

/-- C16: for every `mu`, every `d > 0` and every `0 < sigma1 < sigma2` the
double normal log-density is larger at `mu + d` than at `mu - d`. -/
theorem C16_larger_scale_heavier_tail (mu d sigma1 sigma2 : ℝ) (hd : 0 < d) (h1 : 0 < sigma1)
    (h12 : sigma1 < sigma2) :
    ddnorm Rprims (mu + d) mu sigma1 sigma2 > ddnorm Rprims (mu - d) mu sigma1 sigma2 := by
  have h2 : 0 < sigma2 := lt_trans h1 h12
  have hl : mu - d < mu := by linarith
  have hr : ¬ (mu + d < mu) := by linarith
  simp only [ddnorm, hl, hr, if_true, if_false]
  show Real.log 2 - Real.log (sigma1 + sigma2)
      + (-Real.log (Real.sqrt (2 * Real.pi)) - Real.log 1
          - 0.5 * (((mu + d - mu) / sigma2 - 0) / 1) ^ 2)
    > Real.log 2 - Real.log (sigma1 + sigma2)
      + (-Real.log (Real.sqrt (2 * Real.pi)) - Real.log 1
          - 0.5 * (((mu - d - mu) / sigma1 - 0) / 1) ^ 2)
  have e1 : ((mu + d - mu) / sigma2 - 0) / 1 = d / sigma2 := by ring
  have e2 : ((mu - d - mu) / sigma1 - 0) / 1 = -(d / sigma1) := by ring
  rw [e1, e2, neg_sq]
  have hlt : d / sigma2 < d / sigma1 := div_lt_div_of_pos_left hd h1 h12
  have hpos : 0 < d / sigma2 := by positivity
  have : (d / sigma2) ^ 2 < (d / sigma1) ^ 2 := by nlinarith
  norm_num
  linarith

/-- C16, at `mu = 0`, `sigma1 = 1`, `sigma2 = 2`, `d = 1`: the double normal
log-density at 1 exceeds the one at -1. -/
theorem C16_heavier_tail_witness :
    ddnorm Rprims (0 + 1) 0 1 2 > ddnorm Rprims (0 - 1) 0 1 2 :=
  C16_larger_scale_heavier_tail 0 1 1 2 one_pos one_pos (by norm_num)

/-- C17: with an `exp` that is never negative, for every `log_tdf_1`,
`log_tdf_2` and `share_shape` the derived `tdf_1` and `tdf_2` are at least 2,
so `v - 0.5` and `2/v` of `qthill` are positive for both. -/
theorem C17_df_at_least_two {α : Type} [LinearOrderedField α] (P : Prims α)
    (hexp : ∀ x : α, 0 ≤ P.exp x) (d : Data α) (θ : Params α) :
    (2 ≤ tdf_1 P θ ∧ 2 ≤ tdf_2 P d θ)
      ∧ (0 < tdf_1 P θ - 0.5 ∧ 0 < 2 / tdf_1 P θ)
      ∧ (0 < tdf_2 P d θ - 0.5 ∧ 0 < 2 / tdf_2 P d θ) := by
  have h1 : 2 ≤ tdf_1 P θ := by
    unfold tdf_1
    linarith [hexp θ.log_tdf_1]
  have h2 : 2 ≤ tdf_2 P d θ := by
    unfold tdf_2
    split_ifs
    · exact h1
    · linarith [hexp θ.log_tdf_2]
  refine ⟨⟨h1, h2⟩, ⟨?_, ?_⟩, ⟨?_, ?_⟩⟩
  · norm_num
    linarith
  · positivity
  · norm_num
    linarith
  · positivity

/-- C17, with the real exponential and all log-parameters 0. -/
theorem C17_df_witness :
    (2 ≤ tdf_1 Rprims demoParams ∧ 2 ≤ tdf_2 Rprims (demoData 1 1 1) demoParams)
      ∧ (0 < tdf_1 Rprims demoParams - 0.5 ∧ 0 < 2 / tdf_1 Rprims demoParams)
      ∧ (0 < tdf_2 Rprims (demoData 1 1 1) demoParams - 0.5
          ∧ 0 < 2 / tdf_2 Rprims (demoData 1 1 1) demoParams) :=
  C17_df_at_least_two Rprims (fun x => (Real.exp_pos x).le) (demoData 1 1 1) demoParams

/-- C18: with a `sqrt` that is never negative, for every `p` other than 0.5,
every `v`, `mean` and `sigma > 0`:
`qthill(p, v, mean, sigma) = mean + sigma * qthill(p, v, 0, 1)`,
`qthill(1 - p, v, mean, sigma) - mean = -(qthill(p, v, mean, sigma) - mean)`,
and the result is at or above `mean` when `p > 0.5` and at or below `mean`
when `p < 0.5`. -/
theorem C18_qthill_location_scale {α : Type} [LinearOrderedField α] (P : Prims α)
    (hsqrt : ∀ x : α, 0 ≤ P.sqrt x) (p v mean sigma : α) (hp : p ≠ 0.5) (hs : 0 < sigma) :
    qthill P p v mean sigma = mean + sigma * qthill P p v 0 1
      ∧ qthill P (1 - p) v mean sigma - mean = -(qthill P p v mean sigma - mean)
      ∧ (0.5 < p → mean ≤ qthill P p v mean sigma)
      ∧ (p < 0.5 → qthill P p v mean sigma ≤ mean) := by
  refine ⟨?_, ?_, ?_, ?_⟩
  · simp only [qthill]
    ring
  · rcases lt_or_gt_of_ne hp with h | h
    · have h1 : (1 : α) - p > 0.5 := by norm_num at h ⊢; linarith
      have h2 : ¬ p > 0.5 := not_lt.mpr h.le
      have h3 : (2 : α) * (1 - (1 - p)) = 2 * p := by ring
      simp only [qthill, h1, h2, if_true, if_false, h3]
      ring
    · have h1 : ¬ ((1 : α) - p > 0.5) := by norm_num at h ⊢; linarith
      simp only [qthill, h1, h, if_true, if_false]
      ring
  · intro h
    have h' : p > 0.5 := h
    have key : ∀ t : α, mean ≤ mean + sigma * (P.sqrt t * 1) := by
      intro t
      have := mul_nonneg hs.le (hsqrt t)
      linarith
    simp only [qthill, h', if_true]
    exact key _
  · intro h
    have h2 : ¬ p > 0.5 := not_lt.mpr h.le
    have key : ∀ t : α, mean + sigma * (P.sqrt t * -1) ≤ mean := by
      intro t
      have := mul_nonneg hs.le (hsqrt t)
      linarith
    simp only [qthill, h2, if_false]
    exact key _

/-- C18, at `p = 0.75`, `v = 3`, `mean = 100`, `sigma = 2` with the real
primitives. -/
theorem C18_qthill_witness :
    qthill Rprims 0.75 3 100 2 = 100 + 2 * qthill Rprims 0.75 3 0 1
      ∧ qthill Rprims (1 - 0.75) 3 100 2 - 100 = -(qthill Rprims 0.75 3 100 2 - 100)
      ∧ 100 ≤ qthill Rprims 0.75 3 100 2 := by
  have h := C18_qthill_location_scale Rprims Real.sqrt_nonneg 0.75 3 100 2 (by norm_num)
    (by norm_num)
  exact ⟨h.1, h.2.1, h.2.2.1 (by norm_num)⟩

/-- C19 (counterexample): with scales 1 and 1 and degrees of freedom 2 on the
left and 4 on the right, the double Student-t log-density does not tend, as
`x` tends to `mu = 0` from the left, to the value it returns at `x = 0`. -/
theorem C19_double_t_jump :
    ¬ Filter.Tendsto (fun x => ddt Rprims x 0 1 1 2 4) (nhdsWithin (0 : ℝ) (Set.Iio 0))
        (nhds (ddt Rprims 0 0 1 1 2 4)) := by
  intro h
  have hl := (double_left_limits 0 1 1 2 4 (by norm_num)).2
  have heq := tendsto_nhds_unique h hl
  have hv : ddt Rprims 0 0 1 1 2 4 = Real.log 2 - Real.log (1 + 1) + Rprims.dt 0 4 := by
    simp only [ddt, lt_self_iff_false, if_false, sub_self, zero_div]
    rfl
  rw [hv] at heq
  have hpi : (0 : ℝ) < Real.sqrt Real.pi := Real.sqrt_pos.mpr Real.pi_pos
  have hg1 : Real.Gamma (1 / 2) = Real.sqrt Real.pi := Real.Gamma_one_half_eq
  have hg3 : Real.Gamma (3 / 2) = 1 / 2 * Real.sqrt Real.pi := by
    have : (3 / 2 : ℝ) = 1 / 2 + 1 := by norm_num
    rw [this, Real.Gamma_add_one (by norm_num), hg1]
  have hg5 : Real.Gamma (5 / 2) = 3 / 4 * Real.sqrt Real.pi := by
    have : (5 / 2 : ℝ) = 3 / 2 + 1 := by norm_num
    rw [this, Real.Gamma_add_one (by norm_num), hg3]
    ring
  have e2 : Rprims.dt 0 2 = Real.log (1 / 2 * Real.sqrt Real.pi)
      - 1 / 2 * Real.log (2 * Real.pi) := by
    show Real.log |Real.Gamma ((2 + 1) / 2)| - 1 / 2 * Real.log (2 * Real.pi)
      - Real.log |Real.Gamma (2 / 2)| - (2 + 1) / 2 * Real.log (1 + 0 * 0 / 2) = _
    have h1 : ((2 : ℝ) + 1) / 2 = 3 / 2 := by norm_num
    have h2 : (2 : ℝ) / 2 = 1 := by norm_num
    rw [h1, h2, hg3, Real.Gamma_one, abs_of_pos (by positivity)]
    simp
  have e4 : Rprims.dt 0 4 = Real.log (3 / 4 * Real.sqrt Real.pi)
      - 1 / 2 * Real.log (4 * Real.pi) := by
    show Real.log |Real.Gamma ((4 + 1) / 2)| - 1 / 2 * Real.log (4 * Real.pi)
      - Real.log |Real.Gamma (4 / 2)| - (4 + 1) / 2 * Real.log (1 + 0 * 0 / 4) = _
    have h1 : ((4 : ℝ) + 1) / 2 = 5 / 2 := by norm_num
    have h2 : (4 : ℝ) / 2 = 2 := by norm_num
    rw [h1, h2, hg5, Real.Gamma_two, abs_of_pos (by positivity)]
    simp
  rw [e2, e4, Real.log_mul (by norm_num) hpi.ne', Real.log_mul (by norm_num) hpi.ne',
    Real.log_mul (by norm_num) Real.pi_pos.ne', Real.log_mul (by norm_num) Real.pi_pos.ne']
    at heq
  have l12 : Real.log (1 / 2) = -Real.log 2 := by
    rw [one_div, Real.log_inv]
  have l34 : Real.log (3 / 4) = Real.log 3 - 2 * Real.log 2 := by
    rw [Real.log_div (by norm_num) (by norm_num)]
    have : (4 : ℝ) = 2 ^ 2 := by norm_num
    rw [this, Real.log_pow]
    norm_num
  have l4 : Real.log 4 = 2 * Real.log 2 := by
    have : (4 : ℝ) = 2 ^ 2 := by norm_num
    rw [this, Real.log_pow]
    norm_num
  rw [l12, l34, l4] at heq
  have h89 : Real.log 8 < Real.log 9 := Real.log_lt_log (by norm_num) (by norm_num)
  have l8 : Real.log 8 = 3 * Real.log 2 := by
    have : (8 : ℝ) = 2 ^ 3 := by norm_num
    rw [this, Real.log_pow]
    norm_num
  have l9 : Real.log 9 = 2 * Real.log 3 := by
    have : (9 : ℝ) = 3 ^ 2 := by norm_num
    rw [this, Real.log_pow]
    norm_num
  linarith

/-- C19 (amended): for every `mu` and positive scales the double normal
log-density tends, as `x` tends to `mu` from the left, to the value it returns
at `x = mu`; the double Student-t log-density tends from the left to
`log 2 - log(sigma1 + sigma2) + dt(0, tdf_1)` while its value at `mu` is
`log 2 - log(sigma1 + sigma2) + dt(0, tdf_2)`, so it is continuous at `mu`
when both sides have the same degrees of freedom. -/
theorem C19_left_limit_at_location (mu s1 s2 v1 v2 : ℝ) (_h1 : 0 < s1) (_h2 : 0 < s2)
    (hv1 : 0 < v1) :
    Filter.Tendsto (fun x => ddnorm Rprims x mu s1 s2) (nhdsWithin mu (Set.Iio mu))
        (nhds (ddnorm Rprims mu mu s1 s2))
      ∧ Filter.Tendsto (fun x => ddt Rprims x mu s1 s2 v1 v2) (nhdsWithin mu (Set.Iio mu))
          (nhds (Real.log 2 - Real.log (s1 + s2) + Rprims.dt 0 v1))
      ∧ ddt Rprims mu mu s1 s2 v1 v2 = Real.log 2 - Real.log (s1 + s2) + Rprims.dt 0 v2
      ∧ Filter.Tendsto (fun x => ddt Rprims x mu s1 s2 v1 v1) (nhdsWithin mu (Set.Iio mu))
          (nhds (ddt Rprims mu mu s1 s2 v1 v1)) := by
  obtain ⟨l1, l2⟩ := double_left_limits mu s1 s2 v1 v2 hv1
  obtain ⟨-, l3⟩ := double_left_limits mu s1 s2 v1 v1 hv1
  have e1 : ddnorm Rprims mu mu s1 s2
      = Real.log 2 - Real.log (s1 + s2) + Rprims.dnorm 0 0 1 := by
    simp only [ddnorm, lt_self_iff_false, if_false, sub_self, zero_div]
    rfl
  have e2 : ∀ w : ℝ, ddt Rprims mu mu s1 s2 v1 w
      = Real.log 2 - Real.log (s1 + s2) + Rprims.dt 0 w := by
    intro w
    simp only [ddt, lt_self_iff_false, if_false, sub_self, zero_div]
    rfl
  rw [e1, e2 v1]
  exact ⟨l1, l2, e2 v2, l3⟩

/-- C19 (amended), at `mu = 0`, scales 1 and 2 and 3 degrees of freedom on
both sides. -/
theorem C19_left_limit_witness :
    Filter.Tendsto (fun x => ddnorm Rprims x 0 1 2) (nhdsWithin (0 : ℝ) (Set.Iio 0))
        (nhds (ddnorm Rprims 0 0 1 2))
      ∧ Filter.Tendsto (fun x => ddt Rprims x 0 1 2 3 3) (nhdsWithin (0 : ℝ) (Set.Iio 0))
          (nhds (ddt Rprims 0 0 1 2 3 3)) :=
  have h := C19_left_limit_at_location 0 1 2 3 3 one_pos (by norm_num) (by norm_num)
  ⟨h.1, h.2.2.2⟩

/-- C20: for every `sigma1 > 0`, `sigma2 > 0` and `p` in (0, 1), with
`r = sigma1/(sigma1 + sigma2)`: below `r` the argument `qdnorm` hands to
`qnorm` lies in (0, 0.5), at or above `r` it lies in [0.5, 1), at `p = r` both
expressions equal 0.5, and with `qnorm(0.5, 0, 1) = 0` the quantile at `r` is
`mu`. -/
theorem C20_qdnorm_subprobabilities {α : Type} [LinearOrderedField α] (P : Prims α)
    (hq : P.qnorm 0.5 0 1 = 0) (p mu sigma1 sigma2 : α) (h1 : 0 < sigma1) (h2 : 0 < sigma2)
    (hp0 : 0 < p) (hp1 : p < 1) :
    (p < sigma1 / (sigma1 + sigma2) →
        0 < 0.5 * p * (sigma1 + sigma2) / sigma1 ∧ 0.5 * p * (sigma1 + sigma2) / sigma1 < 0.5)
      ∧ (¬ p < sigma1 / (sigma1 + sigma2) →
        0.5 ≤ 0.5 * ((sigma1 + sigma2) * (1 + p) - 2 * sigma1) / sigma2
          ∧ 0.5 * ((sigma1 + sigma2) * (1 + p) - 2 * sigma1) / sigma2 < 1)
      ∧ 0.5 * (sigma1 / (sigma1 + sigma2)) * (sigma1 + sigma2) / sigma1 = 0.5
      ∧ 0.5 * ((sigma1 + sigma2) * (1 + sigma1 / (sigma1 + sigma2)) - 2 * sigma1) / sigma2 = 0.5
      ∧ qdnorm P (sigma1 / (sigma1 + sigma2)) mu sigma1 sigma2 = mu := by
  have hs : 0 < sigma1 + sigma2 := by linarith
  have e1 : 0.5 * (sigma1 / (sigma1 + sigma2)) * (sigma1 + sigma2) / sigma1 = (0.5 : α) := by
    field_simp
  have e2 : 0.5 * ((sigma1 + sigma2) * (1 + sigma1 / (sigma1 + sigma2)) - 2 * sigma1) / sigma2
      = (0.5 : α) := by
    have h3 : (sigma1 + sigma2) * (1 + sigma1 / (sigma1 + sigma2)) = sigma1 + sigma2 + sigma1 := by
      field_simp
    rw [h3]
    have h4 : sigma1 + sigma2 + sigma1 - 2 * sigma1 = sigma2 := by ring
    rw [h4, mul_div_assoc, div_self h2.ne', mul_one]
  refine ⟨?_, ?_, e1, e2, ?_⟩
  · intro h
    rw [lt_div_iff₀ hs] at h
    constructor
    · positivity
    · rw [div_lt_iff₀ h1]
      norm_num
      nlinarith
  · intro h
    rw [not_lt, div_le_iff₀ hs] at h
    constructor
    · rw [le_div_iff₀ h2]
      norm_num
      nlinarith
    · rw [div_lt_iff₀ h2]
      norm_num
      nlinarith
  · simp only [qdnorm, lt_self_iff_false, if_false, e2, hq]
    ring

/-- C20, at `sigma1 = 1`, `sigma2 = 2`, `mu = 100` with the true normal
quantile: `qdnorm(1/3, 100, 1, 2) = 100`, and at `p = 0.25 < 1/3` the left
argument lies in (0, 0.5). -/
theorem C20_qdnorm_witness :
    qdnorm Rprims ((1 : ℝ) / (1 + 2)) 100 1 2 = 100
      ∧ 0 < 0.5 * (0.25 : ℝ) * (1 + 2) / 1 ∧ 0.5 * (0.25 : ℝ) * (1 + 2) / 1 < 0.5 := by
  have hq : Rprims.qnorm 0.5 0 1 = 0 := by
    show (0 : ℝ) + 1 * stdNormalQuantile 0.5 = 0
    rw [stdNormalQuantile_facts.2.1]
    norm_num
  have h := C20_qdnorm_subprobabilities Rprims hq 0.25 100 1 2 one_pos (by norm_num)
    (by norm_num) (by norm_num)
  exact ⟨h.2.2.2.2, h.1 (by norm_num)⟩

end Claims

end Phenomix
